import Mathlib

set_option autoImplicit false
set_option maxHeartbeats 1000000

/-!
Verification of the core scheduler of `git-local-devops` (`src/actions.ts`).

JavaScript objects keyed by strings are modelled as association lists in
key-insertion order (`Object.entries` iterates string keys in insertion
order, and so does iteration over a JS `Set`).  Machine execution of one
run is modelled sequentially: each launched work item runs to completion,
including its recursive fan-out, before the next one starts — the source
awaits `Promise.all` over the launches and the specification requires all
mutations of the shared pending-work state to be serialized.
-/

namespace GitLocalDevops

/-- A command for one group: executable plus arguments (`string[]`). -/
abbrev Cmd := List String

/-- `ProjectAction` (from `src/types/config`) as consumed by `src/actions.ts`:
optional priority override, the `needs` list of project names, and the map
from group name to command. -/
structure ProjectAction where
  priority : Option Int := none
  needs : List String := []
  groups : List (String × Cmd) := []
deriving DecidableEq

/-- A project of the configuration: remote descriptor, optional default
priority, and the map from action name to `ProjectAction`. -/
structure Project where
  remote : String := ""
  priority : Option Int := none
  actions : List (String × ProjectAction) := []
deriving DecidableEq

/-- The loaded configuration: working directory and the project map. -/
structure Config where
  cwd : String := ""
  projects : List (String × Project) := []
deriving DecidableEq

/-- First-match association-list lookup, the model of `obj[key]` access. -/
def lookupA {α : Type} (l : List (String × α)) (k : String) : Option α :=
  (l.find? (fun p => decide (p.1 = k))).map (·.2)

/-- `GroupKey & ProjectAction`: one work item produced by selection.  The
`group` field is the resolved group binding; `priority`, `needs` and
`groups` are spread from the project's `ProjectAction`. -/
structure Item where
  project : String
  action : String
  group : String
  priority : Option Int := none
  needs : List String := []
  groups : List (String × Cmd) := []
deriving DecidableEq

/-- `config.projects[p].actions[act]` (crashes in JS when `p` is missing;
modelled as `none`). -/
def cfgAction (cfg : Config) (p act : String) : Option ProjectAction :=
  (lookupA cfg.projects p).bind (fun proj => lookupA proj.actions act)

/-- `config.projects[p].actions[act]?.groups[g]`. -/
def cfgGroup (cfg : Config) (p act g : String) : Option Cmd :=
  (cfgAction cfg p act).bind (fun a => lookupA a.groups g)

/-- `config.projects[p]?.actions[act]?.needs ?? []`. -/
def cfgNeeds (cfg : Config) (p act : String) : List String :=
  ((cfgAction cfg p act).map (·.needs)).getD []

/-- The two initial filters and the reduce of `getProjectsToRunActionIn`
(lines 149-165): every configured project that defines `actionToRun` with
the requested group or the `"*"` fallback and is listed in `projectsToRun`
becomes a direct-match work item, bound to `groupToRun` when present, else
to `"*"`. -/
def directMatches (cfg : Config) (actionToRun groupToRun : String)
    (projectsToRun : List String) : List Item :=
  cfg.projects.filterMap (fun np =>
    match lookupA np.2.actions actionToRun with
    | none => none
    | some a =>
      if ((lookupA a.groups groupToRun).isSome ∨ (lookupA a.groups "*").isSome)
          ∧ np.1 ∈ projectsToRun then
        some { project := np.1, action := actionToRun,
               group := if (lookupA a.groups groupToRun).isSome then groupToRun else "*",
               priority := a.priority, needs := a.needs, groups := a.groups }
      else none)

/-- The child item `{...action, project: need, ...neededAction}` built by
`resolveProjectDependencies` (lines 253-261).  When the needed project does
not declare the action the spread of `undefined` keeps the parent's fields;
when the needed project itself is undeclared the source throws a
`TypeError` (total model: parent's fields are kept — unreachable for the
validated configurations the theorems use). -/
def mkChild (cfg : Config) (a : Item) (need : String) : Item :=
  match cfgAction cfg need a.action with
  | some na => { project := need, action := a.action, group := a.group,
                 priority := na.priority, needs := na.needs, groups := na.groups }
  | none => { a with project := need }

/-- `resolveProjectDependencies` (lines 248-267).  The JS `Set` of fresh
object references built by the reduce flattens, in insertion order, to the
item itself followed by the sub-closures of its needs in reverse `needs`
order (each reduce step is `new Set([action, ...resolve(child), ...carry])`,
so a later need's subtree is inserted before the carried earlier ones, and
the only duplicate reference, `action` itself, dedups to the front).
Recursion on the needs graph is not structural, hence the fuel. -/
def resolveProjectDependencies (cfg : Config) : Nat → Item → List Item
  | 0, _ => []
  | fuel+1, a =>
    if a.needs = [] then [a]
    else a :: a.needs.foldl
      (fun acc need => resolveProjectDependencies cfg fuel (mkChild cfg a need) ++ acc) []

/-- The outer reduce of `resolveDependenciesForActions` (lines 229-232):
union (insertion order, all references fresh) of the closures of the
direct matches. -/
def closureList (cfg : Config) (fuel : Nat) (items : List Item) : List Item :=
  items.foldl (fun carry a => carry ++ resolveProjectDependencies cfg fuel a) []

/-- The group-viability filter and group rebinding of
`resolveDependenciesForActions` (lines 234-240), before deduplication. -/
def preUniqSelection (cfg : Config) (fuel : Nat) (items : List Item)
    (groupToRun actionToRun : String) : List Item :=
  ((closureList cfg fuel items).filter
      (fun a => decide ((lookupA a.groups groupToRun).isSome ∨ (lookupA a.groups "*").isSome))).map
    (fun a => { a with
      group := if (cfgGroup cfg a.project actionToRun groupToRun).isSome then groupToRun else "*" })

/-- `_.uniqBy(actionsToRun, action => action.project)`: keep the first
occurrence of every project, preserving order. -/
def uniqByProject (l : List Item) : List Item :=
  l.foldl (fun acc x => if acc.any (fun y => decide (y.project = x.project)) then acc else acc ++ [x]) []

/-- `resolveDependenciesForActions` (lines 223-243). -/
def resolveDependenciesForActions (cfg : Config) (fuel : Nat) (items : List Item)
    (groupToRun actionToRun : String) : List Item :=
  uniqByProject (preUniqSelection cfg fuel items groupToRun actionToRun)

/-- Modelled from the spec: `topologicalSortActionGraph` lives in
`src/graph.ts`, which is not among the provided sources.  Spec §4.1: it
covers every project that defines `actionName`, ordered so that for every
`needs` edge (A needs B), B appears before A, deterministically, and fails
with `CycleError` when the `needs` relation among participating projects is
cyclic (the total model then returns the emitted acyclic prefix).  This is
a Kahn-style selection in configuration order: repeatedly emit the first
remaining participant none of whose needs is still remaining. -/
def topoLoop (cfg : Config) (actionName : String) :
    Nat → List String → List String → List String
  | 0, emitted, _ => emitted
  | fuel+1, emitted, remaining =>
    match remaining.find? (fun p =>
        (cfgNeeds cfg p actionName).all (fun n => decide (n ∉ remaining))) with
    | none => emitted
    | some p => topoLoop cfg actionName fuel (emitted ++ [p]) (remaining.erase p)

/-- Modelled from the spec: see `topoLoop`. -/
def topologicalSortActionGraph (cfg : Config) (actionName : String) : List String :=
  let participants := cfg.projects.filterMap
    (fun np => if (lookupA np.2.actions actionName).isSome then some np.1 else none)
  topoLoop cfg actionName participants.length [] participants

/-- One step of the group-fallback rewiring loop (lines 189-200): every
item whose `needs` contains `actionNoGroup` drops it and splices in that
project's own configured `needs` for the action. -/
def rewireStep (cfg : Config) (actionToRun : String) (items : List Item)
    (actionNoGroup : String) : List Item :=
  items.map (fun a =>
    if actionNoGroup ∈ a.needs then
      { a with needs := a.needs.filter (fun n => decide (n ≠ actionNoGroup))
                          ++ cfgNeeds cfg actionNoGroup actionToRun }
    else a)

/-- The rewiring pass of `getProjectsToRunActionIn` (lines 186-200): walk
the reversed topological order restricted to projects lacking the requested
group and rewire around each. -/
def applyRewiring (cfg : Config) (actionToRun groupToRun : String)
    (items : List Item) : List Item :=
  (((topologicalSortActionGraph cfg actionToRun).reverse).filter
      (fun p => decide (¬ (cfgGroup cfg p actionToRun groupToRun).isSome))).foldl
    (rewireStep cfg actionToRun) items

/-- `getProjectsToRunActionIn` (lines 141-203). -/
def getProjectsToRunActionIn (cfg : Config) (actionToRun groupToRun : String)
    (projectsToRun : List String) : List Item :=
  applyRewiring cfg actionToRun groupToRun
    (resolveDependenciesForActions cfg (cfg.projects.length + 1)
      (directMatches cfg actionToRun groupToRun projectsToRun) groupToRun actionToRun)

/-- `getUniquePriorities` (lines 55-60): the distinct effective priorities
`action.priority ?? 0`, as a JS `Set`, i.e. in first-insertion order —
the source applies no sort. -/
def getUniquePriorities (items : List Item) : List Int :=
  items.foldl (fun carry a =>
    if a.priority.getD 0 ∈ carry then carry else carry ++ [a.priority.getD 0]) []

/-- `GroupKey`: the (project, action, group) key identifying a launch. -/
structure KeyR where
  project : String
  action : String
  group : String
deriving DecidableEq

/-- `ActionOutput`: one outcome record.  `exitCode = none` models a failed
spawn (`undefined` exit code). -/
structure ActionOutput where
  project : String
  action : String
  group : String
  stdout : String := ""
  stderr : String := ""
  exitCode : Option Int := none
  signal : Option String := none
  dir : Option String := none
  cmd : Option Cmd := none
  wasSkippedBy : Option String := none
  wasSkippedDuplicated : Bool := false
deriving DecidableEq

/-- The mutable per-run state of the scheduler.
`began` models the dedup registry of the `ActionOutputPrinter` collaborator
(spec §6, `beganTask`; `actions_utils.ts` is not among the provided
sources): the set of (project, action, group) keys already begun.
`needsOf` holds every work item's current outstanding-dependency list (the
mutated `action.needs` of the shared item objects), `blocked` the projects
still in the `blockedProjects` pool.  `log` is ghost instrumentation that
records, for each actual invocation of the action invoker, the priority
tier being processed when it was launched and the launch key; it never
influences control flow. -/
structure RunState where
  began : List KeyR := []
  needsOf : List (String × List String) := []
  blocked : List String := []
  log : List (Int × KeyR) := []
deriving DecidableEq

/-- The current outstanding-dependency list of a project's work item. -/
def currentNeeds (st : RunState) (p : String) : List String :=
  (lookupA st.needsOf p).getD []

/-- The `duplicateSkip` record `{ wasSkippedDuplicated: true, ...keys }`
(line 70). -/
def dupSkipRecord (keys : KeyR) : ActionOutput :=
  { project := keys.project, action := keys.action, group := keys.group,
    wasSkippedDuplicated := true }

/-- The record `{...actionToSkip, wasSkippedBy: failedProject}` (lines
211-214): the skipped item's own bindings, tagged with the project whose
failure caused the skip. -/
def mkSkipRecord (items : List Item) (p failed : String) : ActionOutput :=
  match items.find? (fun i => decide (i.project = p)) with
  | some i => { project := i.project, action := i.action, group := i.group,
                wasSkippedBy := some failed }
  | none => { project := p, action := "", group := "", wasSkippedBy := some failed }

/-- `findActionsToSkipAfterFailure` (lines 204-221).  The snapshot filter
runs on the pool as it is on entry; each snapshot member is recorded
(unconditionally — even when an earlier recursion of the same call already
removed and recorded it), removed from the pool (`delete` at `indexOf`,
a no-op at index -1), and recursed on under its own project name.
Recursion depth is bounded by the pool size, hence the fuel, which callers
instantiate with `blocked.length + 1`. -/
def findActionsToSkipAfterFailure (items : List Item) :
    Nat → String → RunState → List ActionOutput × RunState
  | 0, _, st => ([], st)
  | fuel+1, failed, st =>
    let snapshot := st.blocked.filter (fun p => decide (failed ∈ currentNeeds st p))
    snapshot.foldl
      (fun acc p =>
        let st1 := { acc.2 with blocked := acc.2.blocked.erase p }
        let rec2 := findActionsToSkipAfterFailure items fuel p st1
        (acc.1 ++ [mkSkipRecord items p failed] ++ rec2.1, rec2.2))
      ([], st)

/-- The `blockedActions.reduce` freeing loop of `runActionPromiseWrapper`
(lines 79-86): every action still in the blocked pool drops `completed`
from its needs list; the ones whose needs list thereby becomes empty are
removed from the pool (`delete blockedActions[i]`) and collected, in pool
order, as freed. -/
def freeBlockedActions (completed : String) (st : RunState) :
    List String × RunState :=
  let newNeeds := fun p => (currentNeeds st p).filter (fun n => decide (n ≠ completed))
  ( st.blocked.filter (fun p => decide (newNeeds p = [])),
    { st with
      needsOf := st.needsOf.map (fun q =>
        if q.1 ∈ st.blocked then (q.1, q.2.filter (fun n => decide (n ≠ completed))) else q),
      blocked := st.blocked.filter (fun p => decide (¬ newNeeds p = [])) } )

/-- `runActionPromiseWrapper` (lines 62-103), sequentially.  The dedup
check consults the registry; on a registered key the `duplicateSkip`
record is returned at once, without invoking.  Otherwise the action is
invoked (`fn`, the injectable `runActionFn` of the source), the failure
cascade is computed when the exit code is not 0, the freeing loop runs,
and every freed item is launched recursively under the key of the
completed chain with only the project replaced (line 90).  The returned
records are `[res, ...blockedActionsResult, ...removedBlockedActions]`. -/
def runActionPromiseWrapper (items : List Item) (fn : KeyR → ActionOutput) :
    Nat → Int → KeyR → RunState → List ActionOutput × RunState
  | 0, _, _, st => ([], st)
  | fuel+1, tier, keys, st =>
    if keys ∈ st.began then
      ([dupSkipRecord keys], st)
    else
      let st1 : RunState := { st with began := st.began ++ [keys] }
      let res := fn keys
      let st2 : RunState := { st1 with log := st1.log ++ [(tier, keys)] }
      let skipped :=
        if res.exitCode = some 0 then (([] : List ActionOutput), st2)
        else findActionsToSkipAfterFailure items (st2.blocked.length + 1) res.project st2
      let freedp := freeBlockedActions keys.project skipped.2
      let chained :=
        freedp.1.foldl
          (fun acc p =>
            let r := runActionPromiseWrapper items fn fuel tier { keys with project := p } acc.2
            (acc.1 ++ r.1, r.2))
          ([], freedp.2)
      (res :: chained.1 ++ skipped.1, chained.2)

/-- The state at the start of `actions`: empty registry, every item's
needs list as selected, and the blocked pool
`projectsToRunActionIn.filter(a => (a.needs?.length ?? 0) > 0)` (line 23). -/
def initState (items : List Item) : RunState :=
  { began := [], log := [],
    needsOf := items.map (fun i => (i.project, i.needs)),
    blocked := (items.filter (fun i => decide (¬ i.needs = []))).map (·.project) }

/-- The tier loop of `actions` (lines 30-53) over already-selected work
items: for each distinct priority, in `getUniquePriorities` order, launch
every item at that priority whose current needs list is empty, and collect
all records. -/
def runScheduler (items : List Item) (fn : KeyR → ActionOutput) :
    List ActionOutput × RunState :=
  (getUniquePriorities items).foldl
    (fun acc priority =>
      let ready := items.filter (fun a =>
        decide (a.priority.getD 0 = priority ∧ currentNeeds acc.2 a.project = []))
      ready.foldl
        (fun acc2 a =>
          let r := runActionPromiseWrapper items fn (items.length + 1) priority
            ⟨a.project, a.action, a.group⟩ acc2.2
          (acc2.1 ++ r.1, r.2))
        acc)
    ([], initState items)

/-- `actions` (lines 13-54): selection followed by the tier loop. -/
def actions (cfg : Config) (actionToRun groupToRun : String)
    (projectsToRun : List String) (fn : KeyR → ActionOutput) :
    List ActionOutput × RunState :=
  runScheduler (getProjectsToRunActionIn cfg actionToRun groupToRun projectsToRun) fn

/-- The normalized result of one spawn, as captured by `runAction`. -/
structure SpawnResult where
  stdout : String := ""
  stderr : String := ""
  exitCode : Option Int := none
  signal : Option String := none
deriving DecidableEq

/-- `runAction` (lines 111-139).  The external collaborators
`getProjectDirFromRemote` (`src/project.ts`, not provided) and
`utils.spawn` are passed as parameters `resolveDir` and `spawnFn`.  The
command is looked up as `action.groups[keys.group] ?? action.groups["*"]`
— the wildcard fallback happens here, at invocation time, while the
returned record spreads the launch `keys` unchanged.  Missing project /
action / group lookups throw in JS; the total model returns a bare record
for them (unreachable for the runs the theorems use). -/
def runAction (cfg : Config) (resolveDir : String → String → String)
    (spawnFn : Cmd → String → SpawnResult) (keys : KeyR) : ActionOutput :=
  match lookupA cfg.projects keys.project with
  | none => { project := keys.project, action := keys.action, group := keys.group }
  | some project =>
    match lookupA project.actions keys.action with
    | none => { project := keys.project, action := keys.action, group := keys.group }
    | some action =>
      match (lookupA action.groups keys.group).orElse (fun _ => lookupA action.groups "*") with
      | none => { project := keys.project, action := keys.action, group := keys.group }
      | some group =>
        let dir := resolveDir cfg.cwd project.remote
        let res := spawnFn group dir
        { project := keys.project, action := keys.action, group := keys.group,
          stdout := res.stdout, stderr := res.stderr,
          exitCode := res.exitCode, signal := res.signal,
          dir := some dir, cmd := some group }

/-- The selection-time error taxonomy (spec §4.2 / §7). -/
inductive SelectionError where
  | UnknownProjectError : String → SelectionError
  | MissingActionError : String → SelectionError
deriving DecidableEq

/-- Every `needs` entry of the configured `actionName` actions, in
configuration order. -/
def allNeedsEntries (cfg : Config) (actionName : String) : List String :=
  cfg.projects.foldr
    (fun np acc =>
      (match lookupA np.2.actions actionName with
       | some a => a.needs
       | none => []) ++ acc) []

/-- Modelled from the spec: the selection-time validation producing
`UnknownProjectError` / `MissingActionError` is not in `src/actions.ts`
(it belongs to the repository's configuration loading, which is not among
the provided sources).  Spec §4.2/§7: selection fails with
`UnknownProjectError` when `projectSubset` or any `needs` entry references
an undeclared project, and with `MissingActionError` when a referenced
project does not declare `actionName` at all. -/
def validateSelection (cfg : Config) (actionName : String)
    (subset : List String) : Option SelectionError :=
  match subset.find? (fun p => decide ((lookupA cfg.projects p).isNone)) with
  | some p => some (.UnknownProjectError p)
  | none =>
    match (allNeedsEntries cfg actionName).find?
        (fun n => decide ((lookupA cfg.projects n).isNone)) with
    | some n => some (.UnknownProjectError n)
    | none =>
      match (subset ++ allNeedsEntries cfg actionName).find?
          (fun p => decide ((cfgAction cfg p actionName).isNone)) with
      | some p => some (.MissingActionError p)
      | none => none

/-- Modelled from the spec: `selectWorkItems` with its error conditions —
validation precedes selection and, a fortiori, any spawn. -/
def selectWorkItemsChecked (cfg : Config) (actionName groupName : String)
    (subset : List String) : Except SelectionError (List Item) :=
  match validateSelection cfg actionName subset with
  | some e => .error e
  | none => .ok (getProjectsToRunActionIn cfg actionName groupName subset)

/-- The full checked run: on a validation error nothing is executed (the
returned state carries an empty invocation log). -/
def actionsChecked (cfg : Config) (actionToRun groupToRun : String)
    (projectsToRun : List String) (fn : KeyR → ActionOutput) :
    Except SelectionError (List ActionOutput × RunState) :=
  match selectWorkItemsChecked cfg actionToRun groupToRun projectsToRun with
  | .error e => .error e
  | .ok items => .ok (runScheduler items fn)

/-! Concrete configurations used by the witnesses and counterexamples. -/

/-- A mock `runActionFn` whose every invocation succeeds with exit code 0,
echoing the launch keys (the shape the real `runAction` returns). -/
def fnOk : KeyR → ActionOutput :=
  fun k => { project := k.project, action := k.action, group := k.group, exitCode := some 0 }

/-- A mock `runActionFn` failing exactly on the given projects. -/
def fnFailOn (failing : List String) : KeyR → ActionOutput :=
  fun k => { project := k.project, action := k.action, group := k.group,
             exitCode := if k.project ∈ failing then some 1 else some 0 }

/-- Two projects: `A` at default priority 0 with no needs, `B` at priority
5 needing `A`; both define action `build` with group `g`. -/
def cfgTier : Config :=
  { cwd := "/w",
    projects :=
      [ ("A", { remote := "ra",
                actions := [("build", { needs := [], groups := [("g", ["echo", "a"])] })] }),
        ("B", { remote := "rb",
                actions := [("build", { priority := some 5, needs := ["A"],
                                        groups := [("g", ["echo", "b"])] })] }) ] }

/-- Two independent projects, `X` discovered first at priority 5, `Y`
second at priority 0. -/
def cfgPrio : Config :=
  { cwd := "/w",
    projects :=
      [ ("X", { remote := "rx",
                actions := [("build", { priority := some 5, needs := [], groups := [("g", ["echo", "x"])] })] }),
        ("Y", { remote := "ry",
                actions := [("build", { needs := [], groups := [("g", ["echo", "y"])] })] }) ] }

/-- A three-project chain `C needs B needs A`, everything at priority 0
with group `g`. -/
def cfgChain : Config :=
  { cwd := "/w",
    projects :=
      [ ("A", { remote := "ra",
                actions := [("build", { needs := [], groups := [("g", ["echo", "a"])] })] }),
        ("B", { remote := "rb",
                actions := [("build", { needs := ["A"], groups := [("g", ["echo", "b"])] })] }),
        ("C", { remote := "rc",
                actions := [("build", { needs := ["B"], groups := [("g", ["echo", "c"])] })] }) ] }

/-- `A needs B needs C`; `A` and `C` define group `g`, `B` only the
wildcard `"*"`. -/
def cfgRewire : Config :=
  { cwd := "/w",
    projects :=
      [ ("A", { remote := "ra",
                actions := [("build", { needs := ["B"], groups := [("g", ["echo", "a"])] })] }),
        ("B", { remote := "rb",
                actions := [("build", { needs := ["C"], groups := [("*", ["echo", "b"])] })] }),
        ("C", { remote := "rc",
                actions := [("build", { needs := [], groups := [("g", ["echo", "c"])] })] }) ] }

/-- `A needs B needs C needs D`; `B` and `C` only define the wildcard, so
rewiring must chain two hops in one pass. -/
def cfgRewire2 : Config :=
  { cwd := "/w",
    projects :=
      [ ("A", { remote := "ra",
                actions := [("build", { needs := ["B"], groups := [("g", ["echo", "a"])] })] }),
        ("B", { remote := "rb",
                actions := [("build", { needs := ["C"], groups := [("*", ["echo", "b"])] })] }),
        ("C", { remote := "rc",
                actions := [("build", { needs := ["D"], groups := [("*", ["echo", "c"])] })] }),
        ("D", { remote := "rd",
                actions := [("build", { needs := [], groups := [("g", ["echo", "d"])] })] }) ] }

/-- One project `p` whose default priority and whose action priority
override are parameters. -/
def mkCfgPrioDefault (pd po : Option Int) : Config :=
  { cwd := "/w",
    projects :=
      [ ("p", { remote := "rp", priority := pd,
                actions := [("build", { priority := po, needs := [], groups := [("g", ["echo", "p"])] })] }) ] }

/-- `A` with group `g` and no needs; `B` needing `A`, with only the
wildcard group. -/
def cfgInherit : Config :=
  { cwd := "/w",
    projects :=
      [ ("A", { remote := "ra",
                actions := [("build", { needs := [], groups := [("g", ["echo", "a"])] })] }),
        ("B", { remote := "rb",
                actions := [("build", { needs := ["A"], groups := [("*", ["echo", "b"])] })] }) ] }

/-! Claim theorems. -/

/-- `Y` needs both `F` and `X`, `X` needs `F`: a failure diamond in a
single tier. -/
def cfgDiamond : Config :=
  { cwd := "/w",
    projects :=
      [ ("F", { remote := "rf",
                actions := [("build", { needs := [], groups := [("g", ["echo", "f"])] })] }),
        ("X", { remote := "rx",
                actions := [("build", { needs := ["F"], groups := [("g", ["echo", "x"])] })] }),
        ("Y", { remote := "ry",
                actions := [("build", { needs := ["F", "X"], groups := [("g", ["echo", "y"])] })] }) ] }

/-- C1, counterexample.  The claim states that `run` returns exactly one
OutcomeRecord per work item.  On `cfgTier` two work items are selected
(`A` at priority 0, `B` at priority 5 needing `A`), every invocation
succeeds, yet the run returns three records: `B` is freed and launched by
`A`'s fan-out during the tier-0 pass, and then re-selected by the tier-5
pass, where the dedup registry turns the second launch into an additional
`duplicateSkip` record.  Failures break the count too, even in a single
tier: on `cfgDiamond`, `F`'s failure records `Y` twice — once as skipped
by `X` inside the recursive cascade and once as skipped by `F` in the
outer loop over the stale snapshot — four records for three items. -/
theorem c1_counterexample :
    ((getProjectsToRunActionIn cfgTier "build" "g" ["A", "B"]).length = 2 ∧
     ((actions cfgTier "build" "g" ["A", "B"] fnOk).1).length = 3 ∧
     ((actions cfgTier "build" "g" ["A", "B"] fnOk).1).map
         (fun o => (o.project, o.wasSkippedDuplicated)) =
       [("A", false), ("B", false), ("B", true)]) ∧
    ((getProjectsToRunActionIn cfgDiamond "build" "g" ["F", "X", "Y"]).length = 3 ∧
     ((actions cfgDiamond "build" "g" ["F", "X", "Y"] (fnFailOn ["F"])).1).map
         (fun o => (o.project, o.wasSkippedBy)) =
       [("F", none), ("X", some "F"), ("Y", some "X"), ("Y", some "F")]) := by
  decide

/-- C2.  `getUniquePriorities` returns a JS `Set` in insertion order and
`actions` iterates it without sorting, although the source's own comment
announces "the sorted priority groups": with `X` (priority 5) declared
before `Y` (priority 0), the tier sequence is `[5, 0]` and `X` is invoked
during the priority-5 pass before `Y`'s priority-0 pass, not in ascending
order as the claim states. -/
theorem c2_tiers_in_discovery_order :
    getUniquePriorities (getProjectsToRunActionIn cfgPrio "build" "g" ["X", "Y"]) = [5, 0] ∧
    ((actions cfgPrio "build" "g" ["X", "Y"] fnOk).2.log).map (fun e => (e.1, e.2.project)) =
      [(5, "X"), (0, "Y")] := by
  decide

/-- C3, counterexample.  The claim states that tier boundaries are a
barrier: an item of a later tier is never launched before that tier's pass
begins.  On `cfgTier`, `B` has effective priority 5 but is invoked during
the priority-0 pass (log tier 0), immediately after its dependency `A`
succeeds. -/
theorem c3_counterexample :
    (getProjectsToRunActionIn cfgTier "build" "g" ["A", "B"]).map
        (fun i => (i.project, i.priority.getD 0)) = [("A", 0), ("B", 5)] ∧
    ((actions cfgTier "build" "g" ["A", "B"] fnOk).2.log).map (fun e => (e.1, e.2.project)) =
      [(0, "A"), (0, "B")] := by
  decide

/-- C5, counterexample.  The claim states that with `A needs B needs C`,
`B` wildcard-only, selecting group `g` excludes `B` from the run.  The
code keeps `B`: the viability filter only drops projects with neither the
requested group nor `"*"`, so `B` stays as a work item bound to `"*"`. -/
theorem c5_counterexample :
    "B" ∈ (getProjectsToRunActionIn cfgRewire "build" "g" ["A", "B", "C"]).map (·.project) := by
  decide

/-- C5, amended.  Rewiring itself is transitive and single-pass: on
`cfgRewire`, `A`'s needs become `[C]` directly; on `cfgRewire2` (two
wildcard-only hops `B`, `C`) `A`'s needs become `[D]` in the single
reverse-topological pass.  The wildcard-only projects are not excluded:
they remain in the run bound to `"*"`, with their own needs rewired
likewise. -/
theorem c5_amended :
    (getProjectsToRunActionIn cfgRewire "build" "g" ["A", "B", "C"]).map
        (fun i => (i.project, i.group, i.needs)) =
      [("A", "g", ["C"]), ("B", "*", ["C"]), ("C", "g", [])] ∧
    (getProjectsToRunActionIn cfgRewire2 "build" "g" ["A", "B", "C", "D"]).map
        (fun i => (i.project, i.group, i.needs)) =
      [("A", "g", ["D"]), ("B", "*", ["D"]), ("C", "*", ["D"]), ("D", "g", [])] := by
  decide

/-- C6, counterexample.  The claim states the effective priority falls
back to the project's default priority.  With a project default of 5 and
no action override, the selected item's priority field is `none` and the
scheduler's effective priority (`action.priority ?? 0`) is 0, not 5: the
scheduler never reads `project.priority`. -/
theorem c6_counterexample :
    ((lookupA (mkCfgPrioDefault (some 5) none).projects "p").map (·.priority) =
      some (some 5)) ∧
    getUniquePriorities
        (getProjectsToRunActionIn (mkCfgPrioDefault (some 5) none) "build" "g" ["p"]) = [0] ∧
    ((0 : Int) = 5 → False) := by
  decide

/-- C6, amended.  For every project default priority `pd` and action
override `po`, the selected work item's effective priority is
`po.getD 0` — the action override when present, else 0 — independently of
`pd`. -/
theorem c6_amended (pd po : Option Int) :
    (getProjectsToRunActionIn (mkCfgPrioDefault pd po) "build" "g" ["p"]).map
        (fun i => i.priority.getD 0) = [po.getD 0] ∧
    getUniquePriorities
        (getProjectsToRunActionIn (mkCfgPrioDefault pd po) "build" "g" ["p"]) = [po.getD 0] := by
  exact ⟨rfl, rfl⟩

/-- In a left fold whose step only appends to the first (output) component,
the output component of the result extends the accumulator's. -/
theorem foldl_fst_grow {α β σ : Type} (f : (List β × σ) → α → (List β × σ))
    (hf : ∀ acc x, ∃ s, (f acc x).1 = acc.1 ++ s) :
    ∀ (l : List α) (acc : List β × σ), ∃ s, (l.foldl f acc).1 = acc.1 ++ s := by
  intro l
  induction l with
  | nil => intro acc; exact ⟨[], by simp⟩
  | cons y t ih =>
    intro acc
    obtain ⟨s₁, hs₁⟩ := hf acc y
    obtain ⟨s₂, hs₂⟩ := ih (f acc y)
    exact ⟨s₁ ++ s₂, by simp [hs₂, hs₁]⟩

/-- In such a fold, if every step's output contains a designated record for
its element, the final output contains that record for every element of the
list. -/
theorem foldl_fst_mem {α β σ : Type} (f : (List β × σ) → α → (List β × σ)) (r : α → β)
    (hf : ∀ acc x, ∃ s, (f acc x).1 = acc.1 ++ s)
    (hr : ∀ acc x, r x ∈ (f acc x).1) :
    ∀ (l : List α) (acc : List β × σ) (x : α), x ∈ l → r x ∈ (l.foldl f acc).1 := by
  intro l
  induction l with
  | nil => intro acc x hx; cases hx
  | cons y t ih =>
    intro acc x hx
    rcases List.mem_cons.mp hx with rfl | hx
    · obtain ⟨s, hs⟩ := foldl_fst_grow f hf t (f acc x)
      rw [List.foldl_cons, hs]
      exact List.mem_append_left _ (hr acc x)
    · exact ih (f acc y) x hx

/-- Every item of the blocked pool whose needs contain the failed project
receives a `skippedBy failedProject` record from the cascade. -/
theorem findSkip_records_mem (items : List Item) (fuel : Nat) (failed : String)
    (st : RunState) (b : String)
    (hb : b ∈ st.blocked) (hn : failed ∈ currentNeeds st b) :
    mkSkipRecord items b failed ∈
      (findActionsToSkipAfterFailure items (fuel + 1) failed st).1 := by
  have hsnap : b ∈ st.blocked.filter (fun p => decide (failed ∈ currentNeeds st p)) :=
    List.mem_filter.mpr ⟨hb, by simpa using hn⟩
  simp only [findActionsToSkipAfterFailure]
  apply foldl_fst_mem _ (fun p => mkSkipRecord items p failed)
  · intro acc x
    exact ⟨[mkSkipRecord items x failed] ++
      (findActionsToSkipAfterFailure items fuel x
        { acc.2 with blocked := acc.2.blocked.erase x }).1, by simp⟩
  · intro acc x
    simp
  · exact hsnap

/-- C4.  First, generally: whenever a pending work item `b` has the failed
project among its outstanding needs, the cascade emits a record for `b`
tagged `skippedBy = failed`.  Second, on the chain `C needs B needs A`
with `A` failing: `B`'s record carries `skippedBy = A`, `C`'s record
carries `skippedBy = B` — its direct predecessor, not the root failure —
and the action invoker is called for `A` only, never for `B` or `C`. -/
theorem c4_skip_cascade :
    (∀ (items : List Item) (fuel : Nat) (failed : String) (st : RunState) (b : String),
       b ∈ st.blocked → failed ∈ currentNeeds st b →
       mkSkipRecord items b failed ∈
         (findActionsToSkipAfterFailure items (fuel + 1) failed st).1) ∧
    ((actions cfgChain "build" "g" ["A", "B", "C"] (fnFailOn ["A"])).1).map
        (fun o => (o.project, o.exitCode, o.wasSkippedBy)) =
      [("A", some 1, none), ("B", none, some "A"), ("C", none, some "B")] ∧
    ((actions cfgChain "build" "g" ["A", "B", "C"] (fnFailOn ["A"])).2.log).map
        (fun e => e.2.project) = ["A"] := by
  refine ⟨findSkip_records_mem, by decide, by decide⟩

/-- C4, witness for the general conjunct: on the selected items of
`cfgChain` with `A` failed, `B` is pending with `A` among its needs and
receives the `skippedBy A` record. -/
theorem c4_witness :
    let items := getProjectsToRunActionIn cfgChain "build" "g" ["A", "B", "C"]
    let st := initState items
    "B" ∈ st.blocked ∧ "A" ∈ currentNeeds st "B" ∧
      mkSkipRecord items "B" "A" ∈ (findActionsToSkipAfterFailure items 1 "A" st).1 := by
  refine ⟨by decide, by decide, c4_skip_cascade.1 _ 0 "A" _ "B" (by decide) (by decide)⟩

/-- The project names of `uniqByProject`'s output are pairwise distinct. -/
theorem uniqByProject_nodup (l : List Item) :
    ((uniqByProject l).map (·.project)).Nodup := by
  suffices h : ∀ (l : List Item) (acc : List Item), (acc.map (·.project)).Nodup →
      ((l.foldl (fun acc x =>
          if acc.any (fun y => decide (y.project = x.project)) then acc else acc ++ [x]) acc).map
        (·.project)).Nodup by
    exact h l [] (by simp)
  intro l
  induction l with
  | nil => intro acc hacc; simpa using hacc
  | cons a t ih =>
    intro acc hacc
    simp only [List.foldl_cons]
    by_cases h : acc.any (fun y => decide (y.project = a.project))
    · rw [if_pos h]; exact ih acc hacc
    · rw [if_neg h]
      apply ih
      have hna : ∀ y ∈ acc, y.project ≠ a.project := by
        intro y hy
        by_contra hyp
        exact h (List.any_eq_true.mpr ⟨y, hy, by simpa using hyp⟩)
      simp only [List.map_append, List.map_cons, List.map_nil]
      rw [List.nodup_append]
      refine ⟨hacc, List.nodup_singleton _, ?_⟩
      intro z hz
      simp only [List.mem_singleton]
      obtain ⟨y, hy, rfl⟩ := List.mem_map.mp hz
      intro hc
      exact hna y hy (by simpa using hc)

/-- Every element kept by `uniqByProject` is the first element of the
input carrying its project name: the first-discovered binding wins. -/
theorem uniqByProject_first_wins (l : List Item) (x : Item)
    (hx : x ∈ uniqByProject l) :
    l.find? (fun z => decide (z.project = x.project)) = some x := by
  suffices h : ∀ (l : List Item) (acc : List Item) (x : Item),
      x ∈ l.foldl (fun acc x =>
          if acc.any (fun y => decide (y.project = x.project)) then acc else acc ++ [x]) acc →
      x ∈ acc ∨ ((∀ y ∈ acc, y.project ≠ x.project) ∧
        l.find? (fun z => decide (z.project = x.project)) = some x) by
    rcases h l [] x hx with hmem | ⟨_, hfind⟩
    · cases hmem
    · exact hfind
  intro l
  induction l with
  | nil => intro acc x hx; exact Or.inl (by simpa using hx)
  | cons a t ih =>
    intro acc x hx
    simp only [List.foldl_cons] at hx
    by_cases h : acc.any (fun y => decide (y.project = a.project))
    · rw [if_pos h] at hx
      rcases ih acc x hx with hmem | ⟨hne, hfind⟩
      · exact Or.inl hmem
      · refine Or.inr ⟨hne, ?_⟩
        obtain ⟨y, hy, hyp⟩ := List.any_eq_true.mp h
        have hap : a.project ≠ x.project := by
          have : y.project = a.project := by simpa using hyp
          rw [← this]; exact hne y hy
        rw [List.find?_cons_of_neg _ (by simpa using hap)]
        exact hfind
    · rw [if_neg h] at hx
      have hna : ∀ y ∈ acc, y.project ≠ a.project := by
        intro y hy
        by_contra hyp
        exact h (List.any_eq_true.mpr ⟨y, hy, by simpa using hyp⟩)
      rcases ih (acc ++ [a]) x hx with hmem | ⟨hne, hfind⟩
      · rcases List.mem_append.mp hmem with hmem | hmem
        · exact Or.inl hmem
        · have hxa : x = a := by simpa using hmem
          subst hxa
          refine Or.inr ⟨hna, ?_⟩
          rw [List.find?_cons_of_pos _ (by simp)]
      · refine Or.inr ⟨fun y hy => hne y (List.mem_append_left _ hy), ?_⟩
        have hap : a.project ≠ x.project := hne a (List.mem_append_right _ (by simp))
        rw [List.find?_cons_of_neg _ (by simpa using hap)]
        exact hfind

/-- Rewiring only rewrites `needs`: the (project, group, priority) triple
of every position is unchanged. -/
theorem rewire_preserves_triples (cfg : Config) (actionToRun groupToRun : String)
    (items : List Item) :
    (applyRewiring cfg actionToRun groupToRun items).map
        (fun a => (a.project, a.group, a.priority)) =
      items.map (fun a => (a.project, a.group, a.priority)) := by
  unfold applyRewiring
  generalize (((topologicalSortActionGraph cfg actionToRun).reverse).filter
    (fun p => decide (¬ (cfgGroup cfg p actionToRun groupToRun).isSome))) = noGroup
  induction noGroup generalizing items with
  | nil => simp
  | cons p t ih =>
    simp only [List.foldl_cons]
    rw [ih]
    unfold rewireStep
    rw [List.map_map]
    apply List.map_congr_left
    intro a _
    by_cases h : p ∈ a.needs <;> simp [h]

/-- C9.  `getProjectsToRunActionIn` returns at most one work item per
project name, and every returned item carries the (group, priority)
binding of the first occurrence of its project in the dependency-closure
enumeration (`preUniqSelection`) — `_.uniqBy` keeps first occurrences and
rewiring touches only `needs`. -/
theorem c9_unique_first_wins (cfg : Config) (actionToRun groupToRun : String)
    (projectsToRun : List String) :
    ((getProjectsToRunActionIn cfg actionToRun groupToRun projectsToRun).map
        (·.project)).Nodup ∧
    ∀ x ∈ getProjectsToRunActionIn cfg actionToRun groupToRun projectsToRun,
      ∃ y, (preUniqSelection cfg (cfg.projects.length + 1)
              (directMatches cfg actionToRun groupToRun projectsToRun)
              groupToRun actionToRun).find?
              (fun z => decide (z.project = x.project)) = some y ∧
        y.project = x.project ∧ y.group = x.group ∧ y.priority = x.priority := by
  set pre := preUniqSelection cfg (cfg.projects.length + 1)
    (directMatches cfg actionToRun groupToRun projectsToRun) groupToRun actionToRun with hpre
  have htrip := rewire_preserves_triples cfg actionToRun groupToRun (uniqByProject pre)
  have hout : getProjectsToRunActionIn cfg actionToRun groupToRun projectsToRun =
      applyRewiring cfg actionToRun groupToRun (uniqByProject pre) := rfl
  constructor
  · rw [hout]
    have hproj : (applyRewiring cfg actionToRun groupToRun (uniqByProject pre)).map (·.project) =
        (uniqByProject pre).map (·.project) := by
      have h1 := congrArg (List.map (fun q : String × String × Option Int => q.1)) htrip
      simpa [List.map_map, Function.comp] using h1
    rw [hproj]
    exact uniqByProject_nodup pre
  · intro x hx
    rw [hout] at hx
    have hxm : (x.project, x.group, x.priority) ∈
        (uniqByProject pre).map (fun a => (a.project, a.group, a.priority)) := by
      rw [← htrip]
      exact List.mem_map.mpr ⟨x, hx, rfl⟩
    obtain ⟨y, hy, hyx⟩ := List.mem_map.mp hxm
    have h1 : y.project = x.project := congrArg Prod.fst hyx
    have h2 : y.group = x.group := congrArg (fun q => q.2.1) hyx
    have h3 : y.priority = x.priority := congrArg (fun q => q.2.2) hyx
    refine ⟨y, ?_, h1, h2, h3⟩
    rw [← h1]
    exact uniqByProject_first_wins pre y hy

/-- C9, witness: on `cfgChain` the output projects are distinct and the
item for `B` matches the first closure occurrence of `B`. -/
theorem c9_witness :
    ((getProjectsToRunActionIn cfgChain "build" "g" ["A", "B", "C"]).map (·.project)).Nodup ∧
    ∃ x, x ∈ getProjectsToRunActionIn cfgChain "build" "g" ["A", "B", "C"] ∧
      ∃ y, (preUniqSelection cfgChain (cfgChain.projects.length + 1)
              (directMatches cfgChain "build" "g" ["A", "B", "C"]) "g" "build").find?
              (fun z => decide (z.project = x.project)) = some y ∧
        y.project = x.project ∧ y.group = x.group ∧ y.priority = x.priority := by
  obtain ⟨h1, h2⟩ := c9_unique_first_wins cfgChain "build" "g" ["A", "B", "C"]
  refine ⟨h1, (getProjectsToRunActionIn cfgChain "build" "g" ["A", "B", "C"]).head (by decide),
    ?_, ?_⟩
  · exact List.head_mem _
  · exact h2 _ (List.head_mem _)

/-- `A` whose needs reference the undeclared project `Z`. -/
def cfgNeedsBad : Config :=
  { cwd := "/w",
    projects :=
      [ ("A", { remote := "ra",
                actions := [("build", { needs := ["Z"], groups := [("g", ["echo", "a"])] })] }) ] }

/-- `A` needing `B`, where `B` is declared but does not define `build` at
all. -/
def cfgMissingAct : Config :=
  { cwd := "/w",
    projects :=
      [ ("A", { remote := "ra",
                actions := [("build", { needs := ["B"], groups := [("g", ["echo", "a"])] })] }),
        ("B", { remote := "rb",
                actions := [("other", { needs := [], groups := [("g", ["echo", "b"])] })] }) ] }

/-- C7.  Selection validation: an undeclared project in the subset yields
`UnknownProjectError`; with the subset fine, an undeclared project in a
`needs` entry yields `UnknownProjectError`; with all references declared,
a referenced project (subset or needs entry) lacking the action yields
`MissingActionError`; and a validation error aborts the checked run before
anything is executed. -/
theorem c7_validation_errors :
    (∀ (cfg : Config) (act : String) (subset : List String),
       (∃ p ∈ subset, lookupA cfg.projects p = none) →
       ∃ q, validateSelection cfg act subset = some (.UnknownProjectError q)) ∧
    (∀ (cfg : Config) (act : String) (subset : List String),
       (∀ p ∈ subset, (lookupA cfg.projects p).isSome) →
       (∃ n ∈ allNeedsEntries cfg act, lookupA cfg.projects n = none) →
       ∃ q, validateSelection cfg act subset = some (.UnknownProjectError q)) ∧
    (∀ (cfg : Config) (act : String) (subset : List String),
       (∀ p ∈ subset, (lookupA cfg.projects p).isSome) →
       (∀ n ∈ allNeedsEntries cfg act, (lookupA cfg.projects n).isSome) →
       (∃ p ∈ subset ++ allNeedsEntries cfg act, cfgAction cfg p act = none) →
       ∃ q, validateSelection cfg act subset = some (.MissingActionError q)) ∧
    (∀ (cfg : Config) (act grp : String) (ps : List String) (fn : KeyR → ActionOutput)
       (e : SelectionError),
       validateSelection cfg act ps = some e →
       actionsChecked cfg act grp ps fn = .error e) := by
  refine ⟨?_, ?_, ?_, ?_⟩
  · intro cfg act subset ⟨p, hp, hnone⟩
    have hs : (subset.find? (fun p => decide ((lookupA cfg.projects p).isNone))).isSome := by
      rw [List.find?_isSome]
      exact ⟨p, hp, by simp [hnone]⟩
    obtain ⟨q, hq⟩ := Option.isSome_iff_exists.mp hs
    exact ⟨q, by simp only [validateSelection, hq]⟩
  · intro cfg act subset hsub ⟨n, hn, hnone⟩
    have h1 : subset.find? (fun p => decide ((lookupA cfg.projects p).isNone)) = none := by
      rw [List.find?_eq_none]
      intro p hp
      simpa using Option.isSome_iff_ne_none.mp (hsub p hp)
    have hs : ((allNeedsEntries cfg act).find?
        (fun n => decide ((lookupA cfg.projects n).isNone))).isSome := by
      rw [List.find?_isSome]
      exact ⟨n, hn, by simp [hnone]⟩
    obtain ⟨q, hq⟩ := Option.isSome_iff_exists.mp hs
    exact ⟨q, by simp only [validateSelection, h1, hq]⟩
  · intro cfg act subset hsub hneeds ⟨p, hp, hnone⟩
    have h1 : subset.find? (fun p => decide ((lookupA cfg.projects p).isNone)) = none := by
      rw [List.find?_eq_none]
      intro r hr
      simpa using Option.isSome_iff_ne_none.mp (hsub r hr)
    have h2 : (allNeedsEntries cfg act).find?
        (fun n => decide ((lookupA cfg.projects n).isNone)) = none := by
      rw [List.find?_eq_none]
      intro r hr
      simpa using Option.isSome_iff_ne_none.mp (hneeds r hr)
    have hs : ((subset ++ allNeedsEntries cfg act).find?
        (fun p => decide ((cfgAction cfg p act).isNone))).isSome := by
      rw [List.find?_isSome]
      exact ⟨p, hp, by simp [hnone]⟩
    obtain ⟨q, hq⟩ := Option.isSome_iff_exists.mp hs
    exact ⟨q, by simp only [validateSelection, h1, h2, hq]⟩
  · intro cfg act grp ps fn e he
    simp only [actionsChecked, selectWorkItemsChecked, he]

/-- C7, witness: a subset entry `Z` undeclared in `cfgChain` gives
`UnknownProjectError`; the needs entry `Z` of `cfgNeedsBad` gives
`UnknownProjectError`; project `B` of `cfgMissingAct`, which lacks
`build`, gives `MissingActionError`; and the checked run on the first
input is the error, so nothing runs. -/
theorem c7_witness :
    (∃ q, validateSelection cfgChain "build" ["A", "Z"] =
      some (.UnknownProjectError q)) ∧
    (∃ q, validateSelection cfgNeedsBad "build" ["A"] =
      some (.UnknownProjectError q)) ∧
    (∃ q, validateSelection cfgMissingAct "build" ["A"] =
      some (.MissingActionError q)) ∧
    actionsChecked cfgChain "build" "g" ["A", "Z"] fnOk =
      .error (.UnknownProjectError "Z") := by
  refine ⟨c7_validation_errors.1 cfgChain "build" ["A", "Z"] ⟨"Z", by decide, by decide⟩,
    c7_validation_errors.2.1 cfgNeedsBad "build" ["A"] (by decide) ⟨"Z", by decide, by decide⟩,
    c7_validation_errors.2.2.1 cfgMissingAct "build" ["A"] (by decide) (by decide)
      ⟨"B", by decide, by decide⟩,
    c7_validation_errors.2.2.2 cfgChain "build" "g" ["A", "Z"] fnOk
      (.UnknownProjectError "Z") (by decide)⟩

/-- Stub directory resolver for the concrete runs. -/
def rdStub : String → String → String := fun c r => c ++ "/" ++ r

/-- Stub spawner whose every command succeeds. -/
def spStub : Cmd → String → SpawnResult := fun _ _ => { exitCode := some 0 }

/-- C10.  Concretely on `cfgInherit` (`B needs A`, `B` wildcard-only):
`B` is freed by `A` and launched under the key inherited from `A`'s chain,
so the dedup registry records `(B, build, g)` and `B`'s outcome record
carries group `g`, even though `B`'s own resolved work-item group is
`"*"`; the command still resolves to `B`'s wildcard command because
`runAction` falls back to `"*"` only at invocation time.  Generally,
`runAction` keeps the launch key's group in the record and looks the
command up as `groups[keys.group] ?? groups["*"]`. -/
theorem c10_inherited_group :
    (((actions cfgInherit "build" "g" ["A", "B"] (runAction cfgInherit rdStub spStub)).1).map
        (fun o => (o.project, o.group, o.cmd)) =
       [("A", "g", some ["echo", "a"]), ("B", "g", some ["echo", "b"])] ∧
     (actions cfgInherit "build" "g" ["A", "B"] (runAction cfgInherit rdStub spStub)).2.began =
       [⟨"A", "build", "g"⟩, ⟨"B", "build", "g"⟩] ∧
     (getProjectsToRunActionIn cfgInherit "build" "g" ["A", "B"]).map
        (fun i => (i.project, i.group)) = [("A", "g"), ("B", "*")]) ∧
    ∀ (cfg : Config) (rd : String → String → String) (sp : Cmd → String → SpawnResult)
      (keys : KeyR) (proj : Project) (act : ProjectAction),
      lookupA cfg.projects keys.project = some proj →
      lookupA proj.actions keys.action = some act →
      (runAction cfg rd sp keys).group = keys.group ∧
      (runAction cfg rd sp keys).cmd =
        (lookupA act.groups keys.group).orElse (fun _ => lookupA act.groups "*") := by
  refine ⟨by decide, ?_⟩
  intro cfg rd sp keys proj act h1 h2
  unfold runAction
  simp only [h1, h2]
  cases h : (lookupA act.groups keys.group).orElse (fun _ => lookupA act.groups "*") with
  | none => simp [h]
  | some gr => simp [h]

/-- C10, witness: launching `B` under the inherited key `(B, build, g)`
keeps group `g` in the record while the command falls back to `B`'s
wildcard command. -/
theorem c10_witness :
    (runAction cfgInherit rdStub spStub ⟨"B", "build", "g"⟩).group = "g" ∧
    (runAction cfgInherit rdStub spStub ⟨"B", "build", "g"⟩).cmd = some ["echo", "b"] := by
  have h := c10_inherited_group.2 cfgInherit rdStub spStub ⟨"B", "build", "g"⟩
    { remote := "rb", actions := [("build", { needs := ["A"], groups := [("*", ["echo", "b"])] })] }
    { needs := ["A"], groups := [("*", ["echo", "b"])] } (by decide) (by decide)
  refine ⟨h.1, ?_⟩
  rw [h.2]
  decide

theorem currentNeeds_congr {st st' : RunState} (h : st.needsOf = st'.needsOf) (p : String) :
    currentNeeds st p = currentNeeds st' p := by
  simp [currentNeeds, h]

/-- Key-preserving needs update commutes with lookup. -/
theorem lookupA_needs_update (l : List (String × List String)) (bl : List String)
    (x k : String) :
    lookupA (l.map (fun q =>
        if q.1 ∈ bl then (q.1, q.2.filter (fun n => decide (n ≠ x))) else q)) k =
      (lookupA l k).map (fun v =>
        if k ∈ bl then v.filter (fun n => decide (n ≠ x)) else v) := by
  induction l with
  | nil => simp [lookupA]
  | cons q t ih =>
    by_cases hq : q.1 = k
    · subst hq
      by_cases hb : q.1 ∈ bl <;>
        simp [lookupA, List.find?_cons, hb]
    · have h1 : lookupA ((q :: t).map (fun q =>
          if q.1 ∈ bl then (q.1, q.2.filter (fun n => decide (n ≠ x))) else q)) k =
          lookupA (t.map (fun q =>
            if q.1 ∈ bl then (q.1, q.2.filter (fun n => decide (n ≠ x))) else q)) k := by
        by_cases hb : q.1 ∈ bl <;>
          simp [lookupA, List.find?_cons, hb, hq]
      have h2 : lookupA (q :: t) k = lookupA t k := by
        simp [lookupA, List.find?_cons, hq]
      rw [h1, h2, ih]

/-- Effect of the freeing loop on a project's current needs. -/
theorem free_needs (x : String) (st : RunState) (p : String) :
    currentNeeds (freeBlockedActions x st).2 p =
      if p ∈ st.blocked then (currentNeeds st p).filter (fun n => decide (n ≠ x))
      else currentNeeds st p := by
  show currentNeeds
      { st with
        needsOf := st.needsOf.map (fun q =>
          if q.1 ∈ st.blocked then (q.1, q.2.filter (fun n => decide (n ≠ x))) else q),
        blocked := st.blocked.filter
          (fun p => decide (¬ ((currentNeeds st p).filter (fun n => decide (n ≠ x))) = [])) } p = _
  unfold currentNeeds
  rw [lookupA_needs_update]
  cases h : lookupA st.needsOf p with
  | none => by_cases hb : p ∈ st.blocked <;> simp [hb]
  | some v => by_cases hb : p ∈ st.blocked <;> simp [hb]

theorem free_began (x : String) (st : RunState) :
    (freeBlockedActions x st).2.began = st.began := rfl

theorem free_log (x : String) (st : RunState) :
    (freeBlockedActions x st).2.log = st.log := rfl

theorem free_blocked (x : String) (st : RunState) :
    (freeBlockedActions x st).2.blocked =
      st.blocked.filter
        (fun p => decide (¬ ((currentNeeds st p).filter (fun n => decide (n ≠ x))) = [])) := rfl

theorem free_freed (x : String) (st : RunState) :
    (freeBlockedActions x st).1 =
      st.blocked.filter
        (fun p => decide (((currentNeeds st p).filter (fun n => decide (n ≠ x))) = [])) := rfl

/-- The cascade changes no registry, log or needs state; it only removes
entries from the blocked pool. -/
theorem findSkip_state (items : List Item) :
    ∀ (fuel : Nat) (failed : String) (st : RunState),
      (findActionsToSkipAfterFailure items fuel failed st).2.began = st.began ∧
      (findActionsToSkipAfterFailure items fuel failed st).2.needsOf = st.needsOf ∧
      (findActionsToSkipAfterFailure items fuel failed st).2.log = st.log ∧
      (findActionsToSkipAfterFailure items fuel failed st).2.blocked.Sublist st.blocked := by
  intro fuel
  induction fuel with
  | zero => intro failed st; exact ⟨rfl, rfl, rfl, List.Sublist.refl _⟩
  | succ fuel ih =>
    intro failed st
    have inner : ∀ (l : List String) (acc : List ActionOutput × RunState),
        acc.2.began = st.began → acc.2.needsOf = st.needsOf → acc.2.log = st.log →
        acc.2.blocked.Sublist st.blocked →
        (l.foldl (fun acc p =>
            let st1 := { acc.2 with blocked := acc.2.blocked.erase p }
            let rec2 := findActionsToSkipAfterFailure items fuel p st1
            (acc.1 ++ [mkSkipRecord items p failed] ++ rec2.1, rec2.2)) acc).2.began = st.began ∧
        (l.foldl (fun acc p =>
            let st1 := { acc.2 with blocked := acc.2.blocked.erase p }
            let rec2 := findActionsToSkipAfterFailure items fuel p st1
            (acc.1 ++ [mkSkipRecord items p failed] ++ rec2.1, rec2.2)) acc).2.needsOf = st.needsOf ∧
        (l.foldl (fun acc p =>
            let st1 := { acc.2 with blocked := acc.2.blocked.erase p }
            let rec2 := findActionsToSkipAfterFailure items fuel p st1
            (acc.1 ++ [mkSkipRecord items p failed] ++ rec2.1, rec2.2)) acc).2.log = st.log ∧
        (l.foldl (fun acc p =>
            let st1 := { acc.2 with blocked := acc.2.blocked.erase p }
            let rec2 := findActionsToSkipAfterFailure items fuel p st1
            (acc.1 ++ [mkSkipRecord items p failed] ++ rec2.1, rec2.2)) acc).2.blocked.Sublist
          st.blocked := by
      intro l
      induction l with
      | nil => intro acc h1 h2 h3 h4; exact ⟨h1, h2, h3, h4⟩
      | cons p t iht =>
        intro acc h1 h2 h3 h4
        simp only [List.foldl_cons]
        apply iht
        · exact (ih p _).1.trans h1
        · exact (ih p _).2.1.trans h2
        · exact (ih p _).2.2.1.trans h3
        · exact ((ih p _).2.2.2.trans (List.erase_sublist _ _)).trans h4
    simpa only [findActionsToSkipAfterFailure] using
      inner (st.blocked.filter (fun p => decide (failed ∈ currentNeeds st p)))
        ([], st) rfl rfl rfl (List.Sublist.refl _)

/-- State evolution of one fan-out launch: the registry and the log are
extended, and every new registry key / log entry is either the launch key
itself or carries a project that was in the blocked pool; the log entries
are all tagged with the current tier; the blocked pool only shrinks, and
every project's outstanding needs only shrink. -/
theorem wrapper_state_spec (items : List Item) (fn : KeyR → ActionOutput) :
    ∀ (fuel : Nat) (tier : Int) (keys : KeyR) (st : RunState),
      (∃ d, (runActionPromiseWrapper items fn fuel tier keys st).2.began = st.began ++ d ∧
         ∀ k' ∈ d, k' = keys ∨ k'.project ∈ st.blocked) ∧
      (∃ d, (runActionPromiseWrapper items fn fuel tier keys st).2.log = st.log ++ d ∧
         ∀ e ∈ d, e.1 = tier ∧ (e.2 = keys ∨ e.2.project ∈ st.blocked)) ∧
      (runActionPromiseWrapper items fn fuel tier keys st).2.blocked.Sublist st.blocked ∧
      (∀ p, (currentNeeds (runActionPromiseWrapper items fn fuel tier keys st).2 p).Sublist
        (currentNeeds st p)) := by
  intro fuel
  induction fuel with
  | zero =>
    intro tier keys st
    exact ⟨⟨[], by simp [runActionPromiseWrapper], by simp⟩,
      ⟨[], by simp [runActionPromiseWrapper], by simp⟩,
      List.Sublist.refl _, fun p => List.Sublist.refl _⟩
  | succ fuel ih =>
    intro tier keys st
    by_cases hdup : keys ∈ st.began
    · simp only [runActionPromiseWrapper, if_pos hdup]
      exact ⟨⟨[], by simp, by simp⟩, ⟨[], by simp, by simp⟩,
        List.Sublist.refl _, fun p => List.Sublist.refl _⟩
    · simp only [runActionPromiseWrapper, if_neg hdup]
      set st1 : RunState := { st with began := st.began ++ [keys] } with hst1
      set res := fn keys with hres
      set st2 : RunState := { st1 with log := st1.log ++ [(tier, keys)] } with hst2
      set skipped := if res.exitCode = some 0 then (([] : List ActionOutput), st2)
        else findActionsToSkipAfterFailure items (st2.blocked.length + 1) res.project st2
        with hskipped
      -- facts about the state after the (possible) cascade
      have hsk_began : skipped.2.began = st.began ++ [keys] := by
        rw [hskipped]
        by_cases he : res.exitCode = some 0
        · rw [if_pos he]
        · rw [if_neg he]; exact (findSkip_state items _ _ _).1
      have hsk_needs : skipped.2.needsOf = st.needsOf := by
        rw [hskipped]
        by_cases he : res.exitCode = some 0
        · rw [if_pos he]
        · rw [if_neg he]; exact (findSkip_state items _ _ _).2.1
      have hsk_log : skipped.2.log = st.log ++ [(tier, keys)] := by
        rw [hskipped]
        by_cases he : res.exitCode = some 0
        · rw [if_pos he]
        · rw [if_neg he]; exact (findSkip_state items _ _ _).2.2.1
      have hsk_blocked : skipped.2.blocked.Sublist st.blocked := by
        rw [hskipped]
        by_cases he : res.exitCode = some 0
        · rw [if_pos he]
        · rw [if_neg he]; exact (findSkip_state items _ _ _).2.2.2
      set stf := (freeBlockedActions keys.project skipped.2).2 with hstf
      have hf_began : stf.began = st.began ++ [keys] := by
        rw [hstf, free_began, hsk_began]
      have hf_log : stf.log = st.log ++ [(tier, keys)] := by
        rw [hstf, free_log, hsk_log]
      have hf_blocked : stf.blocked.Sublist st.blocked := by
        rw [hstf, free_blocked]
        exact (List.filter_sublist _).trans hsk_blocked
      have hf_needs : ∀ p, (currentNeeds stf p).Sublist (currentNeeds st p) := by
        intro p
        rw [hstf, free_needs]
        have hcn : currentNeeds skipped.2 p = currentNeeds st p :=
          currentNeeds_congr hsk_needs p
        by_cases hb : p ∈ skipped.2.blocked
        · rw [if_pos hb, hcn]; exact List.filter_sublist _
        · rw [if_neg hb, hcn]
      have hfreed : ∀ p ∈ (freeBlockedActions keys.project skipped.2).1, p ∈ st.blocked := by
        intro p hp
        rw [free_freed] at hp
        exact hsk_blocked.subset (List.mem_filter.mp hp).1
      -- the chain fold
      have inner : ∀ (l : List String) (acc : List ActionOutput × RunState),
          (∀ p ∈ l, p ∈ st.blocked) →
          (∃ d, acc.2.began = st.began ++ [keys] ++ d ∧ ∀ k' ∈ d, k'.project ∈ st.blocked) →
          (∃ d, acc.2.log = st.log ++ [(tier, keys)] ++ d ∧
            ∀ e ∈ d, e.1 = tier ∧ e.2.project ∈ st.blocked) →
          acc.2.blocked.Sublist st.blocked →
          (∀ p, (currentNeeds acc.2 p).Sublist (currentNeeds st p)) →
          (∃ d, (l.foldl (fun acc p =>
              let r := runActionPromiseWrapper items fn fuel tier { keys with project := p } acc.2
              (acc.1 ++ r.1, r.2)) acc).2.began = st.began ++ [keys] ++ d ∧
            ∀ k' ∈ d, k'.project ∈ st.blocked) ∧
          (∃ d, (l.foldl (fun acc p =>
              let r := runActionPromiseWrapper items fn fuel tier { keys with project := p } acc.2
              (acc.1 ++ r.1, r.2)) acc).2.log = st.log ++ [(tier, keys)] ++ d ∧
            ∀ e ∈ d, e.1 = tier ∧ e.2.project ∈ st.blocked) ∧
          (l.foldl (fun acc p =>
              let r := runActionPromiseWrapper items fn fuel tier { keys with project := p } acc.2
              (acc.1 ++ r.1, r.2)) acc).2.blocked.Sublist st.blocked ∧
          (∀ p, (currentNeeds (l.foldl (fun acc p =>
              let r := runActionPromiseWrapper items fn fuel tier { keys with project := p } acc.2
              (acc.1 ++ r.1, r.2)) acc).2 p).Sublist (currentNeeds st p)) := by
        intro l
        induction l with
        | nil => intro acc _ h1 h2 h3 h4; exact ⟨h1, h2, h3, h4⟩
        | cons p t iht =>
          intro acc hl h1 h2 h3 h4
          simp only [List.foldl_cons]
          obtain ⟨ihb, ihl, ihblk, ihn⟩ := ih tier { keys with project := p } acc.2
          apply iht
          · intro q hq; exact hl q (List.mem_cons_of_mem _ hq)
          · obtain ⟨d0, hd0, hd0c⟩ := h1
            obtain ⟨d1, hd1, hd1c⟩ := ihb
            refine ⟨d0 ++ d1, by simp [hd1, hd0], ?_⟩
            intro k' hk'
            rcases List.mem_append.mp hk' with hk' | hk'
            · exact hd0c k' hk'
            · rcases hd1c k' hk' with rfl | hk'
              · exact hl p (List.mem_cons_self _ _)
              · exact h3.subset hk'
          · obtain ⟨d0, hd0, hd0c⟩ := h2
            obtain ⟨d1, hd1, hd1c⟩ := ihl
            refine ⟨d0 ++ d1, by simp [hd1, hd0], ?_⟩
            intro e he
            rcases List.mem_append.mp he with he | he
            · exact hd0c e he
            · obtain ⟨het, hep⟩ := hd1c e he
              refine ⟨het, ?_⟩
              rcases hep with he2 | hep
              · rw [he2]; exact hl p (List.mem_cons_self _ _)
              · exact h3.subset hep
          · exact ihblk.trans h3
          · intro q; exact (ihn q).trans (h4 q)
      obtain ⟨hb, hlg, hblk, hn⟩ := inner (freeBlockedActions keys.project skipped.2).1
        ([], stf) hfreed ⟨[], by simp [hf_began], by simp⟩
        ⟨[], by simp [hf_log], by simp⟩ hf_blocked hf_needs
      refine ⟨?_, ?_, hblk, hn⟩
      · obtain ⟨d, hd, hdc⟩ := hb
        refine ⟨[keys] ++ d, by simpa using hd, ?_⟩
        intro k' hk'
        rcases List.mem_append.mp hk' with hk' | hk'
        · exact Or.inl (by simpa using hk')
        · exact Or.inr (hdc k' hk')
      · obtain ⟨d, hd, hdc⟩ := hlg
        refine ⟨[(tier, keys)] ++ d, by simpa using hd, ?_⟩
        intro e he
        rcases List.mem_append.mp he with he | he
        · have : e = (tier, keys) := by simpa using he
          rw [this]
          exact ⟨rfl, Or.inl rfl⟩
        · exact ⟨(hdc e he).1, Or.inr (hdc e he).2⟩

/-- Every project freed by the freeing loop was in the blocked pool. -/
theorem free_freed_subset (x : String) (st : RunState) :
    ∀ p ∈ (freeBlockedActions x st).1, p ∈ st.blocked := by
  intro p hp
  rw [free_freed] at hp
  exact (List.mem_filter.mp hp).1

/-- A chain fold only appends to the registry. -/
theorem chains_began_extends (items : List Item) (fn : KeyR → ActionOutput)
    (fuel : Nat) (tier : Int) (keys : KeyR) :
    ∀ (l : List String) (acc : List ActionOutput × RunState),
      ∃ d, (l.foldl (fun acc p =>
          let r := runActionPromiseWrapper items fn fuel tier { keys with project := p } acc.2
          (acc.1 ++ r.1, r.2)) acc).2.began = acc.2.began ++ d := by
  intro l
  induction l with
  | nil => intro acc; exact ⟨[], by simp⟩
  | cons p t ih =>
    intro acc
    simp only [List.foldl_cons]
    obtain ⟨d1, hd1, _⟩ :=
      (wrapper_state_spec items fn fuel tier { keys with project := p } acc.2).1
    obtain ⟨d2, hd2⟩ := ih
      ((acc.1 ++ (runActionPromiseWrapper items fn fuel tier { keys with project := p } acc.2).1,
        (runActionPromiseWrapper items fn fuel tier { keys with project := p } acc.2).2))
    exact ⟨d1 ++ d2, by rw [hd2]; simp [hd1]⟩

/-- Every log entry added by a chain fold over projects of `bl` carries a
project of `bl`, provided the pool stays inside `bl`. -/
theorem chains_log_spec (items : List Item) (fn : KeyR → ActionOutput)
    (fuel : Nat) (tier : Int) (keys : KeyR) (bl : List String) :
    ∀ (l : List String) (acc : List ActionOutput × RunState),
      (∀ p ∈ l, p ∈ bl) →
      acc.2.blocked.Sublist bl →
      ∃ d, (l.foldl (fun acc p =>
          let r := runActionPromiseWrapper items fn fuel tier { keys with project := p } acc.2
          (acc.1 ++ r.1, r.2)) acc).2.log = acc.2.log ++ d ∧
        ∀ e ∈ d, e.2.project ∈ bl := by
  intro l
  induction l with
  | nil => intro acc _ _; exact ⟨[], by simp, by simp⟩
  | cons p t ih =>
    intro acc hl hacc
    simp only [List.foldl_cons]
    obtain ⟨_, ⟨d1, hd1, hd1c⟩, hblk, _⟩ :=
      wrapper_state_spec items fn fuel tier { keys with project := p } acc.2
    obtain ⟨d2, hd2, hd2c⟩ := ih
      ((acc.1 ++ (runActionPromiseWrapper items fn fuel tier { keys with project := p } acc.2).1,
        (runActionPromiseWrapper items fn fuel tier { keys with project := p } acc.2).2))
      (fun q hq => hl q (List.mem_cons_of_mem _ hq))
      (hblk.trans hacc)
    refine ⟨d1 ++ d2, by rw [hd2]; simp [hd1], ?_⟩
    intro e he
    rcases List.mem_append.mp he with he | he
    · rcases (hd1c e he).2 with he2 | hep
      · rw [he2]; exact hl p (List.mem_cons_self _ _)
      · exact hacc.subset hep
    · exact hd2c e he

/-- A launch on a key not yet in the registry registers that key. -/
theorem wrapper_self_in_began (items : List Item) (fn : KeyR → ActionOutput)
    (fuel : Nat) (tier : Int) (keys : KeyR) (st : RunState) (h : keys ∉ st.began) :
    keys ∈ (runActionPromiseWrapper items fn (fuel + 1) tier keys st).2.began := by
  simp only [runActionPromiseWrapper, if_neg h]
  obtain ⟨d, hd⟩ := chains_began_extends items fn fuel tier keys _ _
  rw [hd, free_began]
  have hb : (if (fn keys).exitCode = some 0 then (([] : List ActionOutput),
        ({ { st with began := st.began ++ [keys] } with
            log := { st with began := st.began ++ [keys] }.log ++ [(tier, keys)] } : RunState))
      else findActionsToSkipAfterFailure items
        (({ { st with began := st.began ++ [keys] } with
            log := { st with began := st.began ++ [keys] }.log ++ [(tier, keys)] } : RunState).blocked.length + 1)
        (fn keys).project
        ({ { st with began := st.began ++ [keys] } with
            log := { st with began := st.began ++ [keys] }.log ++ [(tier, keys)] } : RunState)).2.began =
      st.began ++ [keys] := by
    by_cases he : (fn keys).exitCode = some 0
    · rw [if_pos he]
    · rw [if_neg he]; exact (findSkip_state items _ _ _).1
  rw [hb]
  simp

/-- A launch produces results in any state. -/
theorem wrapper_launch_state (items : List Item) (fn : KeyR → ActionOutput)
    (fuel : Nat) (tier : Int) (keys : KeyR) (st : RunState) (h : keys ∉ st.began) :
    (∃ t, (runActionPromiseWrapper items fn (fuel + 1) tier keys st).1 = fn keys :: t) ∧
    (∃ d, (runActionPromiseWrapper items fn (fuel + 1) tier keys st).2.log =
        st.log ++ [(tier, keys)] ++ d ∧ ∀ e ∈ d, e.2.project ∈ st.blocked) := by
  simp only [runActionPromiseWrapper, if_neg h]
  set st2 : RunState := { { st with began := st.began ++ [keys] } with
    log := { st with began := st.began ++ [keys] }.log ++ [(tier, keys)] } with hst2
  set skipped := if (fn keys).exitCode = some 0 then (([] : List ActionOutput), st2)
    else findActionsToSkipAfterFailure items (st2.blocked.length + 1) (fn keys).project st2
    with hskipped
  have hsk_log : skipped.2.log = st.log ++ [(tier, keys)] := by
    rw [hskipped]
    by_cases he : (fn keys).exitCode = some 0
    · rw [if_pos he]
    · rw [if_neg he]; exact (findSkip_state items _ _ _).2.2.1
  have hsk_blocked : skipped.2.blocked.Sublist st.blocked := by
    rw [hskipped]
    by_cases he : (fn keys).exitCode = some 0
    · rw [if_pos he]
    · rw [if_neg he]; exact (findSkip_state items _ _ _).2.2.2
  constructor
  · exact ⟨_, rfl⟩
  · obtain ⟨d, hd, hdc⟩ := chains_log_spec items fn fuel tier keys st.blocked
      (freeBlockedActions keys.project skipped.2).1 ([], (freeBlockedActions keys.project skipped.2).2)
      (fun p hp => hsk_blocked.subset (free_freed_subset _ _ p hp))
      ((by rw [free_blocked]; exact (List.filter_sublist _).trans hsk_blocked :
        (freeBlockedActions keys.project skipped.2).2.blocked.Sublist st.blocked))
    refine ⟨d, ?_, hdc⟩
    rw [hd, free_log, hsk_log]

/-- C8.  Launching a key `k` not yet registered invokes the action exactly
once for `k` (log entries for `k` count 1), and a second launch of the
same key finds it registered: it returns exactly the `duplicateSkip`
record and leaves the run state untouched, without invoking; together one
executed record (the head, `fn k`) and one `duplicateSkip` record are
produced for `k`. -/
theorem c8_dedup (items : List Item) (fn : KeyR → ActionOutput)
    (fuel₁ fuel₂ : Nat) (tier₁ tier₂ : Int) (k : KeyR) (st : RunState)
    (h1 : k ∉ st.began) (h2 : k.project ∉ st.blocked) (h3 : ∀ e ∈ st.log, e.2 ≠ k) :
    (∃ t, (runActionPromiseWrapper items fn (fuel₁ + 1) tier₁ k st).1 = fn k :: t) ∧
    (((runActionPromiseWrapper items fn (fuel₁ + 1) tier₁ k st).2.log.filter
        (fun e => decide (e.2 = k))).length = 1) ∧
    runActionPromiseWrapper items fn (fuel₂ + 1) tier₂ k
        (runActionPromiseWrapper items fn (fuel₁ + 1) tier₁ k st).2 =
      ([dupSkipRecord k], (runActionPromiseWrapper items fn (fuel₁ + 1) tier₁ k st).2) := by
  obtain ⟨⟨t, ht⟩, ⟨d, hd, hdc⟩⟩ := wrapper_launch_state items fn fuel₁ tier₁ k st h1
  refine ⟨⟨t, ht⟩, ?_, ?_⟩
  · rw [hd]
    have hst : st.log.filter (fun e => decide (e.2 = k)) = [] := by
      rw [List.filter_eq_nil_iff]
      intro e he
      simpa using h3 e he
    have hdf : d.filter (fun e => decide (e.2 = k)) = [] := by
      rw [List.filter_eq_nil_iff]
      intro e he
      have hp : e.2.project ∈ st.blocked := hdc e he
      simp only [decide_eq_true_eq]
      intro hek
      rw [hek] at hp
      exact h2 hp
    simp [List.filter_append, hst, hdf]
  · have hk : k ∈ (runActionPromiseWrapper items fn (fuel₁ + 1) tier₁ k st).2.began :=
      wrapper_self_in_began items fn fuel₁ tier₁ k st h1
    generalize hgen : (runActionPromiseWrapper items fn (fuel₁ + 1) tier₁ k st).2 = s1 at hk ⊢
    simp only [runActionPromiseWrapper, if_pos hk]

/-- C8, witness: on the selected items of `cfgChain` from the initial
state, launching `(A, build, g)` twice invokes once and the second launch
is the duplicate skip. -/
theorem c8_witness :
    let items := getProjectsToRunActionIn cfgChain "build" "g" ["A", "B", "C"]
    let st := initState items
    let k : KeyR := ⟨"A", "build", "g"⟩
    (∃ t, (runActionPromiseWrapper items fnOk 1 0 k st).1 = fnOk k :: t) ∧
    (((runActionPromiseWrapper items fnOk 1 0 k st).2.log.filter
        (fun e => decide (e.2 = k))).length = 1) ∧
    runActionPromiseWrapper items fnOk 1 0 k (runActionPromiseWrapper items fnOk 1 0 k st).2 =
      ([dupSkipRecord k], (runActionPromiseWrapper items fnOk 1 0 k st).2) := by
  exact c8_dedup _ fnOk 0 0 0 0 ⟨"A", "build", "g"⟩ _ (by decide) (by decide)
    (by intro e he; simp [initState] at he)

/-- Every invocation recorded by a run either launches a selected item
during the tier pass matching that item's effective priority, or launches
a project that started the run in the blocked pool. -/
theorem sched_log_spec (items : List Item) (fn : KeyR → ActionOutput) :
    ∀ e ∈ (runScheduler items fn).2.log,
      (∃ r ∈ items, r.project = e.2.project ∧ r.priority.getD 0 = e.1) ∨
      e.2.project ∈ (initState items).blocked := by
  have inner : ∀ (tier : Int) (l : List Item) (acc : List ActionOutput × RunState),
      (∀ a ∈ l, a ∈ items ∧ a.priority.getD 0 = tier) →
      acc.2.blocked.Sublist (initState items).blocked →
      (∀ e ∈ acc.2.log,
        (∃ r ∈ items, r.project = e.2.project ∧ r.priority.getD 0 = e.1) ∨
        e.2.project ∈ (initState items).blocked) →
      (∀ e ∈ (l.foldl (fun acc2 a =>
          let r := runActionPromiseWrapper items fn (items.length + 1) tier
            ⟨a.project, a.action, a.group⟩ acc2.2
          (acc2.1 ++ r.1, r.2)) acc).2.log,
        (∃ r ∈ items, r.project = e.2.project ∧ r.priority.getD 0 = e.1) ∨
        e.2.project ∈ (initState items).blocked) ∧
      (l.foldl (fun acc2 a =>
          let r := runActionPromiseWrapper items fn (items.length + 1) tier
            ⟨a.project, a.action, a.group⟩ acc2.2
          (acc2.1 ++ r.1, r.2)) acc).2.blocked.Sublist (initState items).blocked := by
    intro tier l
    induction l with
    | nil => intro acc _ h2 h3; exact ⟨h3, h2⟩
    | cons a t iht =>
      intro acc hl hblk hlog
      simp only [List.foldl_cons]
      obtain ⟨_, ⟨d, hd, hdc⟩, hwblk, _⟩ :=
        wrapper_state_spec items fn (items.length + 1) tier ⟨a.project, a.action, a.group⟩ acc.2
      apply iht
        ((acc.1 ++ (runActionPromiseWrapper items fn (items.length + 1) tier
            ⟨a.project, a.action, a.group⟩ acc.2).1,
          (runActionPromiseWrapper items fn (items.length + 1) tier
            ⟨a.project, a.action, a.group⟩ acc.2).2))
      · intro b hb; exact hl b (List.mem_cons_of_mem _ hb)
      · exact hwblk.trans hblk
      · intro e he
        rw [hd] at he
        rcases List.mem_append.mp he with he | he
        · exact hlog e he
        · obtain ⟨het, hep⟩ := hdc e he
          rcases hep with he2 | hep
          · refine Or.inl ⟨a, (hl a (List.mem_cons_self _ _)).1, ?_, ?_⟩
            · rw [he2]
            · rw [het]; exact (hl a (List.mem_cons_self _ _)).2
          · exact Or.inr (hblk.subset hep)
  have outer : ∀ (ps : List Int) (acc : List ActionOutput × RunState),
      acc.2.blocked.Sublist (initState items).blocked →
      (∀ e ∈ acc.2.log,
        (∃ r ∈ items, r.project = e.2.project ∧ r.priority.getD 0 = e.1) ∨
        e.2.project ∈ (initState items).blocked) →
      (∀ e ∈ (ps.foldl (fun acc priority =>
          (items.filter (fun a =>
            decide (a.priority.getD 0 = priority ∧ currentNeeds acc.2 a.project = []))).foldl
            (fun acc2 a =>
              let r := runActionPromiseWrapper items fn (items.length + 1) priority
                ⟨a.project, a.action, a.group⟩ acc2.2
              (acc2.1 ++ r.1, r.2)) acc) acc).2.log,
        (∃ r ∈ items, r.project = e.2.project ∧ r.priority.getD 0 = e.1) ∨
        e.2.project ∈ (initState items).blocked) := by
    intro ps
    induction ps with
    | nil => intro acc _ h2; exact h2
    | cons pr t iht =>
      intro acc hblk hlog
      simp only [List.foldl_cons]
      have hready : ∀ a ∈ items.filter (fun a =>
          decide (a.priority.getD 0 = pr ∧ currentNeeds acc.2 a.project = [])),
          a ∈ items ∧ a.priority.getD 0 = pr := by
        intro a ha
        obtain ⟨ham, hac⟩ := List.mem_filter.mp ha
        exact ⟨ham, (of_decide_eq_true hac).1⟩
      obtain ⟨hlog', hblk'⟩ := inner pr
        (items.filter (fun a =>
          decide (a.priority.getD 0 = pr ∧ currentNeeds acc.2 a.project = [])))
        acc hready hblk hlog
      exact iht _ hblk' hlog'
  intro e he
  exact outer (getUniquePriorities items) ([], initState items)
    (List.Sublist.refl _) (by intro e he; cases he) e he

/-- C3, amended.  An initially-ready work item (empty `needs` at selection
time) is only ever invoked during the tier pass of its own effective
priority: the barrier holds for items that start a tier pass ready.  It
does not hold for blocked items — they are launched by fan-out the moment
their last dependency completes, whatever tier is running (see the
counterexample). -/
theorem c3_amended (items : List Item) (fn : KeyR → ActionOutput) (i : Item)
    (hnd : (items.map (·.project)).Nodup) (hi : i ∈ items) (hready : i.needs = [])
    (t : Int) (k : KeyR)
    (hlog : (t, k) ∈ (runScheduler items fn).2.log) (hk : k.project = i.project) :
    t = i.priority.getD 0 := by
  rcases sched_log_spec items fn (t, k) hlog with ⟨r, hr, hrp, hrt⟩ | hblk
  · have hri : r = i := by
      apply List.inj_on_of_nodup_map hnd hr hi
      show r.project = i.project
      rw [hrp]; exact hk
    rw [hri] at hrt
    exact hrt.symm
  · exfalso
    have : k.project ∈ (items.filter (fun i => decide (¬ i.needs = []))).map (·.project) := hblk
    obtain ⟨j, hj, hjp⟩ := List.mem_map.mp this
    obtain ⟨hjm, hjc⟩ := List.mem_filter.mp hj
    have hji : j = i := by
      apply List.inj_on_of_nodup_map hnd hjm hi
      show j.project = i.project
      rw [hjp]; exact hk
    rw [hji] at hjc
    exact (of_decide_eq_true hjc) hready

/-- C3, amended, witness: in the `cfgChain` run every item is
initially-blocked or ready; `A` is ready with priority 0 and its log entry
carries tier 0. -/
theorem c3_amended_witness :
    (0 : Int) =
      ((getProjectsToRunActionIn cfgChain "build" "g" ["A", "B", "C"]).head
        (by decide)).priority.getD 0 := by
  apply c3_amended (getProjectsToRunActionIn cfgChain "build" "g" ["A", "B", "C"]) fnOk _
    (by decide) (List.head_mem _) (by decide) 0 ⟨"A", "build", "g"⟩ (by decide) (by decide)

/-- After a launch, some registry key carries the launch key's project. -/
theorem wrapper_key_in_began (items : List Item) (fn : KeyR → ActionOutput)
    (fuel : Nat) (tier : Int) (keys : KeyR) (st : RunState) :
    ∃ k ∈ (runActionPromiseWrapper items fn (fuel + 1) tier keys st).2.began,
      k.project = keys.project := by
  by_cases hdup : keys ∈ st.began
  · simp only [runActionPromiseWrapper, if_pos hdup]
    exact ⟨keys, hdup, rfl⟩
  · exact ⟨keys, wrapper_self_in_began items fn fuel tier keys st hdup, rfl⟩

/-- The freeing loop partitions the blocked pool into freed and still
blocked. -/
theorem blocked_partition (x : String) (st : RunState) :
    st.blocked.length =
      (freeBlockedActions x st).1.length + (freeBlockedActions x st).2.blocked.length := by
  rw [free_freed, free_blocked]
  have hc : st.blocked.filter
      (fun p => decide (¬ ((currentNeeds st p).filter (fun n => decide (n ≠ x))) = [])) =
      st.blocked.filter
        (fun p => (! decide (((currentNeeds st p).filter (fun n => decide (n ≠ x))) = []))) := by
    apply List.filter_congr
    intro a _
    exact decide_not
  rw [hc]
  exact List.length_eq_length_filter_add _

/-- A project not freed by the loop but removed from its output pool is
impossible: removal from the pool happens exactly on freeing. -/
theorem free_removed_is_freed (x : String) (st : RunState) (p : String)
    (hp : p ∈ st.blocked) (hout : p ∉ (freeBlockedActions x st).2.blocked) :
    p ∈ (freeBlockedActions x st).1 := by
  rw [free_blocked] at hout
  rw [free_freed]
  apply List.mem_filter.mpr
  refine ⟨hp, ?_⟩
  by_contra hne
  exact hout (List.mem_filter.mpr ⟨hp, by simpa using hne⟩)

/-- With pairwise-distinct project names, the initial needs map recovers
each item's needs. -/
theorem initState_needs (items : List Item) (hnd : (items.map (·.project)).Nodup) :
    ∀ i ∈ items, currentNeeds (initState items) i.project = i.needs := by
  intro i hi
  show (lookupA (items.map (fun i => (i.project, i.needs))) i.project).getD [] = i.needs
  suffices h : lookupA (items.map (fun i => (i.project, i.needs))) i.project = some i.needs by
    rw [h]; rfl
  induction items with
  | nil => cases hi
  | cons j t ih =>
    rcases List.mem_cons.mp hi with rfl | hi
    · simp [lookupA, List.find?_cons]
    · have hne : j.project ≠ i.project := by
        intro hc
        simp only [List.map_cons, List.nodup_cons] at hnd
        exact hnd.1 (hc ▸ List.mem_map.mpr ⟨i, hi, rfl⟩)
      have : lookupA ((j :: t).map (fun i => (i.project, i.needs))) i.project =
          lookupA (t.map (fun i => (i.project, i.needs))) i.project := by
        simp [lookupA, List.find?_cons, hne]
      rw [this]
      exact ih (by simp only [List.map_cons, List.nodup_cons] at hnd; exact hnd.2) hi

/-- When all items share one effective priority, there is exactly one
tier. -/
theorem uniquePriorities_all_eq (items : List Item) (pr : Int)
    (hne : items ≠ []) (hall : ∀ i ∈ items, i.priority.getD 0 = pr) :
    getUniquePriorities items = [pr] := by
  have haux : ∀ (l : List Item) (carry : List Int), (∀ i ∈ l, i.priority.getD 0 = pr) →
      pr ∈ carry →
      l.foldl (fun carry a =>
        if a.priority.getD 0 ∈ carry then carry else carry ++ [a.priority.getD 0]) carry =
      carry := by
    intro l
    induction l with
    | nil => intro carry _ _; rfl
    | cons a t ih =>
      intro carry hl hpr
      simp only [List.foldl_cons]
      rw [if_pos (by rw [hl a (List.mem_cons_self _ _)]; exact hpr)]
      exact ih carry (fun i hi => hl i (List.mem_cons_of_mem _ hi)) hpr
  cases items with
  | nil => exact absurd rfl hne
  | cons a t =>
    show (a :: t).foldl _ [] = [pr]
    simp only [List.foldl_cons]
    rw [if_neg (by simp)]
    have ha : a.priority.getD 0 = pr := hall a (List.mem_cons_self _ _)
    rw [ha]
    exact haux t [pr] (fun i hi => hall i (List.mem_cons_of_mem _ hi)) (by simp)

/-- Every blocked project's outstanding needs are nonempty. -/
def NB (st : RunState) : Prop :=
  ∀ p ∈ st.blocked, currentNeeds st p ≠ []

/-- No registered key's project is still outstanding for any blocked
project: completed launches have been erased from all needs lists. -/
def CLR (st : RunState) : Prop :=
  ∀ k ∈ st.began, ∀ p ∈ st.blocked, k.project ∉ currentNeeds st p

/-- Under all-successful invocations, with enough fuel, one launch
produces exactly one record plus one record per project it removes from
the blocked pool; it preserves the nonempty-needs and cleared-registry
invariants, and registers a key for every project it removes. -/
theorem wrapper_success_inv (items : List Item) (fn : KeyR → ActionOutput)
    (hs : ∀ k, (fn k).exitCode = some 0) :
    ∀ (fuel : Nat) (tier : Int) (keys : KeyR) (st : RunState),
      st.blocked.length < fuel →
      ((runActionPromiseWrapper items fn fuel tier keys st).1.length +
          (runActionPromiseWrapper items fn fuel tier keys st).2.blocked.length =
        1 + st.blocked.length) ∧
      (NB st → NB (runActionPromiseWrapper items fn fuel tier keys st).2) ∧
      (CLR st → CLR (runActionPromiseWrapper items fn fuel tier keys st).2) ∧
      (∀ p ∈ st.blocked, p ∉ (runActionPromiseWrapper items fn fuel tier keys st).2.blocked →
        ∃ k ∈ (runActionPromiseWrapper items fn fuel tier keys st).2.began, k.project = p) := by
  intro fuel
  induction fuel with
  | zero => intro tier keys st h; exact absurd h (Nat.not_lt_zero _)
  | succ fuel ih =>
    intro tier keys st hfuel
    by_cases hdup : keys ∈ st.began
    · simp only [runActionPromiseWrapper, if_pos hdup]
      exact ⟨by simp, fun h => h, fun h => h, fun p hp hnp => absurd hp hnp⟩
    · simp only [runActionPromiseWrapper, if_neg hdup]
      set st1 : RunState := { st with began := st.began ++ [keys] } with hst1
      set res := fn keys with hres
      set st2 : RunState := { st1 with log := st1.log ++ [(tier, keys)] } with hst2
      have hskv : (if res.exitCode = some 0 then (([] : List ActionOutput), st2)
          else findActionsToSkipAfterFailure items (st2.blocked.length + 1) res.project st2) =
          (([] : List ActionOutput), st2) := by
        rw [if_pos (by rw [hres]; exact hs keys)]
      rw [hskv]
      have hst2blk : st2.blocked = st.blocked := rfl
      have hst2needs : st2.needsOf = st.needsOf := rfl
      have hst2began : st2.began = st.began ++ [keys] := rfl
      set stf := (freeBlockedActions keys.project (([] : List ActionOutput), st2).2).2 with hstf
      set freed := (freeBlockedActions keys.project (([] : List ActionOutput), st2).2).1 with hfreed
      have hstf2 : stf = (freeBlockedActions keys.project st2).2 := rfl
      have hfreed2 : freed = (freeBlockedActions keys.project st2).1 := rfl
      have hpart : st.blocked.length = freed.length + stf.blocked.length := by
        rw [hfreed2, hstf2, ← hst2blk]
        exact blocked_partition keys.project st2
      have hstfblk_sub : stf.blocked.Sublist st.blocked := by
        rw [hstf2, free_blocked, hst2blk]
        exact List.filter_sublist _
      have hstf_began : stf.began = st.began ++ [keys] := by
        rw [hstf2, free_began, hst2began]
      have hfreed_sub : ∀ p ∈ freed, p ∈ st.blocked := by
        intro p hp
        rw [hfreed2] at hp
        rw [← hst2blk]
        exact free_freed_subset _ _ p hp
      have hcn2 : ∀ p, currentNeeds st2 p = currentNeeds st p := fun p =>
        currentNeeds_congr hst2needs p
      have hNBstf : NB stf := by
        intro p hp
        rw [hstf2, free_needs]
        rw [hstf2, free_blocked] at hp
        obtain ⟨hpb, hpc⟩ := List.mem_filter.mp hp
        rw [if_pos hpb, hcn2]
        have := of_decide_eq_true hpc
        rw [hcn2] at this
        exact this
      have hCLRstf : CLR st → CLR stf := by
        intro hc k hk p hp
        have hpb2 : p ∈ st2.blocked := by
          rw [hstf2, free_blocked] at hp
          exact (List.mem_filter.mp hp).1
        have hneeds : currentNeeds stf p =
            (currentNeeds st p).filter (fun n => decide (n ≠ keys.project)) := by
          rw [hstf2, free_needs, if_pos hpb2, hcn2]
        rw [hneeds]
        rw [hstf_began] at hk
        rcases List.mem_append.mp hk with hk | hk
        · intro hmem
          exact hc k hk p hpb2 (List.mem_filter.mp hmem).1
        · have hkk : k = keys := by simpa using hk
          intro hmem
          have hh := (List.mem_filter.mp hmem).2
          rw [hkk] at hh
          simp at hh
      have inner : ∀ (l : List String) (acc : List ActionOutput × RunState),
          (∀ p ∈ l, p ∈ st.blocked) →
          acc.2.blocked.length < fuel →
          ((l.foldl (fun acc p =>
              let r := runActionPromiseWrapper items fn fuel tier { keys with project := p } acc.2
              (acc.1 ++ r.1, r.2)) acc).1.length +
            (l.foldl (fun acc p =>
              let r := runActionPromiseWrapper items fn fuel tier { keys with project := p } acc.2
              (acc.1 ++ r.1, r.2)) acc).2.blocked.length =
            acc.1.length + acc.2.blocked.length + l.length) ∧
          ((l.foldl (fun acc p =>
              let r := runActionPromiseWrapper items fn fuel tier { keys with project := p } acc.2
              (acc.1 ++ r.1, r.2)) acc).2.blocked.length ≤ acc.2.blocked.length) ∧
          (NB acc.2 → NB (l.foldl (fun acc p =>
              let r := runActionPromiseWrapper items fn fuel tier { keys with project := p } acc.2
              (acc.1 ++ r.1, r.2)) acc).2) ∧
          (CLR acc.2 → CLR (l.foldl (fun acc p =>
              let r := runActionPromiseWrapper items fn fuel tier { keys with project := p } acc.2
              (acc.1 ++ r.1, r.2)) acc).2) ∧
          ((∀ q ∈ st.blocked, q ∉ acc.2.blocked →
              (∃ k ∈ acc.2.began, k.project = q) ∨ q ∈ l) →
            ∀ q ∈ st.blocked, q ∉ (l.foldl (fun acc p =>
              let r := runActionPromiseWrapper items fn fuel tier { keys with project := p } acc.2
              (acc.1 ++ r.1, r.2)) acc).2.blocked →
              ∃ k ∈ (l.foldl (fun acc p =>
                let r := runActionPromiseWrapper items fn fuel tier { keys with project := p } acc.2
                (acc.1 ++ r.1, r.2)) acc).2.began, k.project = q) := by
        intro l
        induction l with
        | nil =>
          intro acc _ _
          refine ⟨by simp, le_refl _, fun h => h, fun h => h, ?_⟩
          intro hinv q hq hnq
          rcases hinv q hq hnq with h | h
          · exact h
          · cases h
        | cons p t iht =>
          intro acc hl hlen
          simp only [List.foldl_cons]
          obtain ⟨hacct, hNBw, hCLRw, hGw⟩ := ih tier { keys with project := p } acc.2 hlen
          obtain ⟨⟨db, hdb, _⟩, _, hblkw, _⟩ :=
            wrapper_state_spec items fn fuel tier { keys with project := p } acc.2
          have hlew : (runActionPromiseWrapper items fn fuel tier
              { keys with project := p } acc.2).2.blocked.length ≤ acc.2.blocked.length :=
            hblkw.length_le
          obtain ⟨iA, iLe, iNB, iCLR, iG⟩ := iht
            ((acc.1 ++ (runActionPromiseWrapper items fn fuel tier
                { keys with project := p } acc.2).1,
              (runActionPromiseWrapper items fn fuel tier
                { keys with project := p } acc.2).2))
            (fun q hq => hl q (List.mem_cons_of_mem _ hq))
            (lt_of_le_of_lt hlew hlen)
          refine ⟨?_, ?_, ?_, ?_, ?_⟩
          · simp only [List.length_append, List.length_cons] at iA ⊢
            omega
          · exact le_trans iLe hlew
          · intro hnb; exact iNB (hNBw hnb)
          · intro hclr; exact iCLR (hCLRw hclr)
          · intro hinv
            apply iG
            intro q hq hnq
            by_cases hqa : q ∈ acc.2.blocked
            · exact Or.inl (hGw q hqa hnq)
            · rcases hinv q hq hqa with hk | hql
              · obtain ⟨k, hk1, hk2⟩ := hk
                exact Or.inl ⟨k, by rw [hdb]; exact List.mem_append_left _ hk1, hk2⟩
              · rcases List.mem_cons.mp hql with rfl | hql
                · obtain ⟨fl, hfl⟩ : ∃ fl, fuel = fl + 1 := ⟨fuel - 1, by omega⟩
                  have hkey := wrapper_key_in_began items fn fl tier
                    { keys with project := q } acc.2
                  rw [← hfl] at hkey
                  obtain ⟨k, hk1, hk2⟩ := hkey
                  exact Or.inl ⟨k, hk1, hk2⟩
                · exact Or.inr hql
      by_cases hfe : freed = []
      · rw [hfe]
        simp only [List.foldl_nil]
        have hb3 : stf.blocked.length = st.blocked.length := by
          rw [hfe] at hpart; simpa using hpart.symm
        refine ⟨by simp [hb3], fun _ => hNBstf, fun hclr => hCLRstf hclr, ?_⟩
        intro q hq hnq
        exfalso
        have hqf : q ∈ freed := by
          rw [hfreed2]
          apply free_removed_is_freed keys.project st2 q hq
          rw [← hstf2]; exact hnq
        rw [hfe] at hqf; cases hqf
      · have hflen : 1 ≤ freed.length := by
          cases hfx : freed with
          | nil => exact absurd hfx hfe
          | cons a b => simp [hfx]
        have hstflen : stf.blocked.length < fuel := by omega
        obtain ⟨iA, iLe, iNB, iCLR, iG⟩ := inner freed ([], stf) hfreed_sub hstflen
        refine ⟨?_, fun _ => iNB hNBstf, fun hclr => iCLR (hCLRstf hclr), ?_⟩
        · simp only [List.length_append, List.length_cons, List.length_nil] at iA ⊢
          omega
        · intro q hq hnq
          apply iG ?inv q hq hnq
          case inv =>
            intro q' hq' hnq'
            right
            rw [hfreed2]
            apply free_removed_is_freed keys.project st2 q' hq'
            rw [← hstf2]; exact hnq'

/-- The tier pass over ready items, under all-successful invocations:
record accounting, shrinking pool, shrinking needs, preservation of the
pool invariants, and coverage — after the pass every item is still blocked
or has a registered key. -/
theorem readyfold_success (items : List Item) (fn : KeyR → ActionOutput)
    (hs : ∀ k, (fn k).exitCode = some 0) (tier : Int) :
    ∀ (l : List Item) (acc : List ActionOutput × RunState),
      acc.2.blocked.length < items.length + 1 →
      ((l.foldl (fun acc2 a =>
          let r := runActionPromiseWrapper items fn (items.length + 1) tier
            ⟨a.project, a.action, a.group⟩ acc2.2
          (acc2.1 ++ r.1, r.2)) acc).1.length +
        (l.foldl (fun acc2 a =>
          let r := runActionPromiseWrapper items fn (items.length + 1) tier
            ⟨a.project, a.action, a.group⟩ acc2.2
          (acc2.1 ++ r.1, r.2)) acc).2.blocked.length =
        acc.1.length + acc.2.blocked.length + l.length) ∧
      ((l.foldl (fun acc2 a =>
          let r := runActionPromiseWrapper items fn (items.length + 1) tier
            ⟨a.project, a.action, a.group⟩ acc2.2
          (acc2.1 ++ r.1, r.2)) acc).2.blocked.Sublist acc.2.blocked) ∧
      (∀ p, (currentNeeds (l.foldl (fun acc2 a =>
          let r := runActionPromiseWrapper items fn (items.length + 1) tier
            ⟨a.project, a.action, a.group⟩ acc2.2
          (acc2.1 ++ r.1, r.2)) acc).2 p).Sublist (currentNeeds acc.2 p)) ∧
      (NB acc.2 → NB (l.foldl (fun acc2 a =>
          let r := runActionPromiseWrapper items fn (items.length + 1) tier
            ⟨a.project, a.action, a.group⟩ acc2.2
          (acc2.1 ++ r.1, r.2)) acc).2) ∧
      (CLR acc.2 → CLR (l.foldl (fun acc2 a =>
          let r := runActionPromiseWrapper items fn (items.length + 1) tier
            ⟨a.project, a.action, a.group⟩ acc2.2
          (acc2.1 ++ r.1, r.2)) acc).2) ∧
      ((∀ i ∈ items, i.project ∈ acc.2.blocked ∨
          (∃ k ∈ acc.2.began, k.project = i.project) ∨
          (∃ r ∈ l, r.project = i.project)) →
        ∀ i ∈ items, i.project ∈ (l.foldl (fun acc2 a =>
            let r := runActionPromiseWrapper items fn (items.length + 1) tier
              ⟨a.project, a.action, a.group⟩ acc2.2
            (acc2.1 ++ r.1, r.2)) acc).2.blocked ∨
          ∃ k ∈ (l.foldl (fun acc2 a =>
            let r := runActionPromiseWrapper items fn (items.length + 1) tier
              ⟨a.project, a.action, a.group⟩ acc2.2
            (acc2.1 ++ r.1, r.2)) acc).2.began, k.project = i.project) := by
  intro l
  induction l with
  | nil =>
    intro acc _
    refine ⟨by simp, List.Sublist.refl _, fun p => List.Sublist.refl _,
      fun h => h, fun h => h, ?_⟩
    intro hinv i hi
    rcases hinv i hi with h | h | h
    · exact Or.inl h
    · exact Or.inr h
    · obtain ⟨r, hr, _⟩ := h; cases hr
  | cons a t iht =>
    intro acc hlen
    simp only [List.foldl_cons]
    obtain ⟨hacct, hNBw, hCLRw, hGw⟩ :=
      wrapper_success_inv items fn hs (items.length + 1) tier
        ⟨a.project, a.action, a.group⟩ acc.2 hlen
    obtain ⟨⟨db, hdb, _⟩, _, hblkw, hneedw⟩ :=
      wrapper_state_spec items fn (items.length + 1) tier
        ⟨a.project, a.action, a.group⟩ acc.2
    have hlew : (runActionPromiseWrapper items fn (items.length + 1) tier
        ⟨a.project, a.action, a.group⟩ acc.2).2.blocked.length ≤ acc.2.blocked.length :=
      hblkw.length_le
    obtain ⟨iA, iSub, iNeeds, iNB, iCLR, iG⟩ := iht
      ((acc.1 ++ (runActionPromiseWrapper items fn (items.length + 1) tier
          ⟨a.project, a.action, a.group⟩ acc.2).1,
        (runActionPromiseWrapper items fn (items.length + 1) tier
          ⟨a.project, a.action, a.group⟩ acc.2).2))
      (lt_of_le_of_lt hlew hlen)
    refine ⟨?_, iSub.trans hblkw, fun p => (iNeeds p).trans (hneedw p),
      fun hnb => iNB (hNBw hnb), fun hclr => iCLR (hCLRw hclr), ?_⟩
    · simp only [List.length_append, List.length_cons] at iA ⊢
      omega
    · intro hinv
      apply iG
      intro i hi
      rcases hinv i hi with hb | hk | hr
      · by_cases hib : i.project ∈ (runActionPromiseWrapper items fn (items.length + 1) tier
            ⟨a.project, a.action, a.group⟩ acc.2).2.blocked
        · exact Or.inl hib
        · exact Or.inr (Or.inl (hGw i.project hb hib))
      · obtain ⟨k, hk1, hk2⟩ := hk
        exact Or.inr (Or.inl ⟨k, by rw [hdb]; exact List.mem_append_left _ hk1, hk2⟩)
      · obtain ⟨r, hrl, hrp⟩ := hr
        rcases List.mem_cons.mp hrl with rfl | hrl
        · obtain ⟨k, hk1, hk2⟩ := wrapper_key_in_began items fn items.length tier
            ⟨r.project, r.action, r.group⟩ acc.2
          exact Or.inr (Or.inl ⟨k, hk1, by rw [hk2, hrp]⟩)
        · exact Or.inr (Or.inr ⟨r, hrl, hrp⟩)

/-- C1, amended.  When every invocation succeeds and all work items share
one effective priority tier (so no item is freed across a tier boundary
and later re-selected), the scheduler returns exactly one OutcomeRecord
per work item.  The well-formedness hypotheses hold for every selected set
of a valid configuration: distinct project names, needs referencing
selected items, and an acyclic needs relation (witnessed by a rank
function).  In general the count can exceed the number of items — see the
counterexample, where a cross-tier freeing adds a `duplicateSkip` record
— so the equality is stated for the single-tier case. -/
theorem c1_amended (items : List Item) (fn : KeyR → ActionOutput) (rank : String → Nat)
    (hnd : (items.map (·.project)).Nodup)
    (hclosed : ∀ i ∈ items, ∀ n ∈ i.needs, ∃ j ∈ items, j.project = n)
    (hrank : ∀ i ∈ items, ∀ n ∈ i.needs, rank n < rank i.project)
    (hsucc : ∀ k, (fn k).exitCode = some 0)
    (htier : ∀ i ∈ items, ∀ j ∈ items, i.priority.getD 0 = j.priority.getD 0) :
    (runScheduler items fn).1.length = items.length := by
  by_cases hne : items = []
  · subst hne; rfl
  · set p0 := (items.head hne).priority.getD 0 with hp0
    have hall : ∀ i ∈ items, i.priority.getD 0 = p0 :=
      fun i hi => htier i hi (items.head hne) (List.head_mem hne)
    have hprios : getUniquePriorities items = [p0] :=
      uniquePriorities_all_eq items p0 hne hall
    unfold runScheduler
    rw [hprios]
    simp only [List.foldl_cons, List.foldl_nil]
    have hready_eq : items.filter (fun a =>
        decide (a.priority.getD 0 = p0 ∧
          currentNeeds (([] : List ActionOutput), initState items).2 a.project = [])) =
        items.filter (fun a => decide (a.needs = [])) := by
      apply List.filter_congr
      intro a ha
      apply decide_eq_decide.mpr
      constructor
      · intro ⟨_, h2⟩
        rw [← initState_needs items hnd a ha]
        exact h2
      · intro h
        exact ⟨hall a ha, by rw [initState_needs items hnd a ha]; exact h⟩
    rw [hready_eq]
    have hblk0 : (initState items).blocked =
        (items.filter (fun i => decide (¬ i.needs = []))).map (·.project) := rfl
    have hblk0len : (initState items).blocked.length =
        (items.filter (fun i => decide (¬ i.needs = []))).length := by
      rw [hblk0, List.length_map]
    have hpartition : (items.filter (fun a => decide (a.needs = []))).length +
        (initState items).blocked.length = items.length := by
      rw [hblk0len]
      have hc : items.filter (fun i => decide (¬ i.needs = [])) =
          items.filter (fun i => ! decide (i.needs = [])) := by
        apply List.filter_congr
        intro a _
        exact decide_not
      rw [hc]
      exact (List.length_eq_length_filter_add (l := items)
        (fun i => decide (i.needs = []))).symm
    have hlen0 : (([] : List ActionOutput), initState items).2.blocked.length <
        items.length + 1 := by
      show (initState items).blocked.length < items.length + 1
      rw [hblk0len]
      exact Nat.lt_succ_of_le (List.length_filter_le _ _)
    obtain ⟨iA, iSub, iNeeds, iNB, iCLR, iG⟩ :=
      readyfold_success items fn hsucc p0 (items.filter (fun a => decide (a.needs = [])))
        ([], initState items) hlen0
    have hNB0 : NB (([] : List ActionOutput), initState items).2 := by
      intro p hp
      rw [hblk0] at hp
      obtain ⟨j, hj, hjp⟩ := List.mem_map.mp hp
      obtain ⟨hjm, hjc⟩ := List.mem_filter.mp hj
      rw [← hjp, initState_needs items hnd j hjm]
      exact of_decide_eq_true hjc
    have hCLR0 : CLR (([] : List ActionOutput), initState items).2 := by
      intro k hk
      cases hk
    have hinv0 : ∀ i ∈ items,
        i.project ∈ (([] : List ActionOutput), initState items).2.blocked ∨
        (∃ k ∈ (([] : List ActionOutput), initState items).2.began, k.project = i.project) ∨
        (∃ r ∈ items.filter (fun a => decide (a.needs = [])), r.project = i.project) := by
      intro i hi
      by_cases hin : i.needs = []
      · exact Or.inr (Or.inr ⟨i, List.mem_filter.mpr ⟨hi, by simpa using hin⟩, rfl⟩)
      · exact Or.inl (by
          rw [hblk0]
          exact List.mem_map.mpr ⟨i, List.mem_filter.mpr ⟨hi, by simpa using hin⟩, rfl⟩)
    set fold := (items.filter (fun a => decide (a.needs = []))).foldl
      (fun acc2 a =>
        let r := runActionPromiseWrapper items fn (items.length + 1) p0
          ⟨a.project, a.action, a.group⟩ acc2.2
        (acc2.1 ++ r.1, r.2)) ([], initState items) with hfold
    have hNBf : NB fold.2 := iNB hNB0
    have hCLRf : CLR fold.2 := iCLR hCLR0
    have hINV4f : ∀ i ∈ items, i.project ∈ fold.2.blocked ∨
        ∃ k ∈ fold.2.began, k.project = i.project := iG hinv0
    have hfsub : fold.2.blocked.Sublist (initState items).blocked := iSub
    have hkill : ∀ (m : Nat) (q : String), q ∈ fold.2.blocked → rank q < m → False := by
      intro m
      induction m with
      | zero => intro q _ h; exact absurd h (Nat.not_lt_zero _)
      | succ m ihm =>
        intro q hq hlt
        have hq0 : q ∈ (initState items).blocked := hfsub.subset hq
        rw [hblk0] at hq0
        obtain ⟨j, hj, hjp⟩ := List.mem_map.mp hq0
        obtain ⟨hjm, _⟩ := List.mem_filter.mp hj
        have hneq : currentNeeds fold.2 q ≠ [] := hNBf q hq
        obtain ⟨n, hn⟩ := List.exists_mem_of_ne_nil _ hneq
        have hnj : n ∈ j.needs := by
          have hsub : (currentNeeds fold.2 q).Sublist
              (currentNeeds (([] : List ActionOutput), initState items).2 q) := iNeeds q
          have : n ∈ currentNeeds (initState items) q := hsub.subset hn
          rw [← hjp, initState_needs items hnd j hjm] at this
          exact this
        have hrk : rank n < rank q := by
          rw [← hjp]
          exact hrank j hjm n hnj
        obtain ⟨mm, hmm, hmmp⟩ := hclosed j hjm n hnj
        rcases hINV4f mm hmm with hmb | ⟨k, hk1, hk2⟩
        · exact ihm mm.project (hmmp ▸ hmb) (by rw [hmmp]; omega)
        · apply hCLRf k hk1 q hq
          rw [hk2, hmmp]
          exact hn
    have hempty : fold.2.blocked = [] := by
      by_contra hne2
      obtain ⟨q, hq⟩ := List.exists_mem_of_ne_nil _ hne2
      exact hkill (rank q + 1) q hq (Nat.lt_succ_self _)
    have hemptylen : fold.2.blocked.length = 0 := by rw [hempty]; rfl
    simp only [List.length_nil] at iA
    omega

/-- C1, amended, witness: on the three selected single-tier items of
`cfgChain` with all invocations succeeding, the run returns exactly three
records. -/
theorem c1_amended_witness :
    (runScheduler (getProjectsToRunActionIn cfgChain "build" "g" ["A", "B", "C"]) fnOk).1.length =
      (getProjectsToRunActionIn cfgChain "build" "g" ["A", "B", "C"]).length := by
  apply c1_amended _ fnOk
    (fun p => if p = "A" then 0 else if p = "B" then 1 else 2)
    (by decide) (by decide) (by decide) (fun k => rfl) (by decide)

end GitLocalDevops
